import Mathlib

/-!
Verification development for the slimdeploy repository.

Go strings are modelled as `List Char` (unicode scalar values; Go's byte-level
representation only differs on invalid UTF-8, which does not arise for the
values these claims speak about).  Go maps are modelled as association lists
in insertion order; `map[k] = v` is `mapInsert`, lookup is `lookupKey`.
Effectful collaborators (git, docker, the sql store) are modelled as explicit
outcome parameters or as explicit state threading, following the control flow
of the Go source.
-/

namespace SlimDeploy

/-- Go `string`, at unicode-scalar granularity. -/
abbrev Str := List Char

/-- Go `strings.HasPrefix` (on scalar lists). -/
def strStartsWith : Str → Str → Bool
  | [], _ => true
  | _ :: _, [] => false
  | p :: ps, c :: cs => p = c && strStartsWith ps cs

/-- Go `strings.HasSuffix` (on scalar lists). -/
def strEndsWith (suf s : Str) : Bool := strStartsWith suf.reverse s.reverse

/-- Association-list lookup, i.e. Go map read `m[k]`. -/
def lookupKey (k : Str) : List (Str × Str) → Option Str
  | [] => none
  | kv :: rest => if kv.1 = k then some kv.2 else lookupKey k rest

/-- Go map write `m[k] = v`: overwrite the binding if the key is present,
append it otherwise. -/
def mapInsert (k v : Str) (m : List (Str × Str)) : List (Str × Str) :=
  if m.any (fun kv => kv.1 = k) then
    m.map (fun kv => if kv.1 = k then (k, v) else kv)
  else
    m ++ [(k, v)]

/-- Insert a whole list of bindings in order (a Go `for k, v := range src { dst[k] = v }`). -/
def mapInsertAll (src m : List (Str × Str)) : List (Str × Str) :=
  src.foldl (fun acc kv => mapInsert kv.1 kv.2 acc) m

/-! ## The data model (src/unnamed/part_000, package models) -/

/-- `models.DeployType`. -/
inductive DeployType
  | image
  | compose
deriving DecidableEq, Repr

/-- `models.ProjectStatus`. -/
inductive ProjectStatus
  | running
  | stopped
  | error
  | deploying
  | pending
deriving DecidableEq, Repr

/-- `models.Project`.  `EnvVars` / `ContainerIDs` are `Option`-wrapped to keep
Go's nil-vs-empty distinction, which `EnvVarsJSON` / `ContainerIDsJSON` branch
on.  `CreatedAt`/`UpdatedAt` timestamps are omitted: no claim mentions them. -/
structure Project where
  id : Str
  name : Str
  gitURL : Str
  branch : Str
  deployType : DeployType
  image : Str
  domain : Str
  useSubdomain : Bool
  port : Nat
  envVars : Option (List (Str × Str))
  autoDeploy : Bool
  lastCommit : Str
  status : ProjectStatus
  statusMsg : Str
  containerIDs : Option (List Str)
deriving DecidableEq, Repr

/-- `Project.GetEffectiveDomain`. -/
def getEffectiveDomain (p : Project) (baseDomain : Str) : Str :=
  if p.domain ≠ [] then p.domain
  else if p.useSubdomain ∧ baseDomain ≠ [] then p.name ++ ".".data ++ baseDomain
  else []

/-! ## Router-name sanitisation (src/unnamed/part_002, `sanitizeRouterName`) -/

/-- Go `strings.ToLower`, scalar-wise.  We model the ASCII case; full Unicode
lowercasing differs only on characters that are not in `[a-z0-9]` afterwards
either way, so every theorem below is insensitive to the difference. -/
def goToLower (c : Char) : Char :=
  if 'A' ≤ c ∧ c ≤ 'Z' then Char.ofNat (c.toNat + 32) else c

/-- The character test in `sanitizeRouterName`'s loop:
`(r >= 'a' && r <= 'z') || (r >= '0' && r <= '9')`. -/
def isRouterChar (c : Char) : Bool :=
  ('a' ≤ c && c ≤ 'z') || ('0' ≤ c && c ≤ '9')

/-- The loop body: keep an allowed rune, write `-` otherwise. -/
def keepOrDash (c : Char) : Char :=
  if isRouterChar c then c else '-'

/-- Go `strings.Contains(s, "--")`. -/
def hasDoubleDash : Str → Bool
  | [] => false
  | [_] => false
  | a :: b :: rest => (a = '-' && b = '-') || hasDoubleDash (b :: rest)

/-- Go `strings.ReplaceAll(s, "--", "-")`: one left-to-right,
non-overlapping replacement pass. -/
def replDD : Str → Str
  | [] => []
  | [c] => [c]
  | a :: b :: rest =>
    if a = '-' && b = '-' then '-' :: replDD rest else a :: replDD (b :: rest)

/-- The `for strings.Contains(cleaned, "--") { … ReplaceAll … }` loop.
Each pass shrinks the string while a `--` is present, so `s.length` passes
always reach the fixpoint; the fuel makes the recursion structural. -/
def collapseDashesFuel : Nat → Str → Str
  | 0, s => s
  | fuel + 1, s => if hasDoubleDash s then collapseDashesFuel fuel (replDD s) else s

def collapseDashes (s : Str) : Str := collapseDashesFuel s.length s

/-- Go `strings.Trim(s, "-")`: drop leading dashes, then trailing dashes. -/
def trimDashes (s : Str) : Str :=
  ((s.dropWhile (fun c => c = '-')).reverse.dropWhile (fun c => c = '-')).reverse

/-- `sanitizeRouterName` from src/unnamed/part_002. -/
def sanitizeRouterName (name : Str) : Str :=
  trimDashes (collapseDashes ((name.map goToLower).map keepOrDash))

/-! ## Traefik label synthesis (src/unnamed/part_002) -/

/-- `fmt.Sprintf("%d", port)`. -/
def natToStr (n : Nat) : Str := Nat.toDigits 10 n

/-- The key prefix of every router label the generator emits. -/
def routersPre : Str := "traefik.http.routers.".data

/-- `Host(\`domain\`)` — the rule value `fmt.Sprintf("Host(\`%s\`)", domain)`. -/
def hostRule (domain : Str) : Str := "Host(`".data ++ domain ++ "`)".data

/-- `strings.HasSuffix(domain, ".localhost") || domain == "localhost"`. -/
def isLocalDomain (domain : Str) : Bool :=
  strEndsWith ".localhost".data domain || domain = "localhost".data

/-- The label set shared by both branches of `GenerateTraefikLabels`:
the enable flag, the load-balancer port, and the docker network.
In the source these are distinct-key map writes; we keep them as a list in
insertion order. -/
def baseLabels (routerName : Str) (port : Nat) : List (Str × Str) :=
  [("traefik.enable".data, "true".data),
   ("traefik.http.services.".data ++ routerName ++ ".loadbalancer.server.port".data,
    natToStr port),
   ("traefik.docker.network".data, "slimdeploy".data)]

/-- The router labels added in the `isLocal` branch. -/
def localRouterLabels (routerName domain : Str) : List (Str × Str) :=
  [(routersPre ++ routerName ++ ".rule".data, hostRule domain),
   (routersPre ++ routerName ++ ".entrypoints".data, "web".data)]

/-- The router labels added in the production branch: an HTTP router with the
redirect middleware, then an HTTPS router with the certificate resolver. -/
def prodRouterLabels (routerName domain : Str) : List (Str × Str) :=
  [(routersPre ++ routerName ++ "-http".data ++ ".rule".data, hostRule domain),
   (routersPre ++ routerName ++ "-http".data ++ ".entrypoints".data, "web".data),
   (routersPre ++ routerName ++ "-http".data ++ ".middlewares".data,
    "redirect-to-https@docker".data),
   (routersPre ++ routerName ++ ".rule".data, hostRule domain),
   (routersPre ++ routerName ++ ".entrypoints".data, "websecure".data),
   (routersPre ++ routerName ++ ".tls".data ++ ".certresolver".data, "letsencrypt".data)]

/-- Shared tail of `GenerateTraefikLabels` / `GenerateTraefikLabelsForCompose`
once the router name is fixed (the two functions are verbatim copies from the
`routerName :=` line on). -/
def traefikLabelsCore (routerName : Str) (p : Project) (domain : Str) : List (Str × Str) :=
  if domain = [] then []
  else
    baseLabels routerName (if p.port = 0 then 80 else p.port) ++
      (if isLocalDomain domain then localRouterLabels routerName domain
       else prodRouterLabels routerName domain)

/-- `GenerateTraefikLabels(project, baseDomain)`. -/
def generateTraefikLabels (p : Project) (baseDomain : Str) : List (Str × Str) :=
  traefikLabelsCore (sanitizeRouterName p.name) p (getEffectiveDomain p baseDomain)

/-- `GenerateTraefikLabelsForCompose(project, baseDomain, serviceName)`:
the router name is derived from `name-service`. -/
def generateTraefikLabelsForCompose (p : Project) (baseDomain serviceName : Str) :
    List (Str × Str) :=
  traefikLabelsCore (sanitizeRouterName (p.name ++ "-".data ++ serviceName)) p
    (getEffectiveDomain p baseDomain)

/-! ## Compose documents and label injection (src/internal/db/projects.go,
package docker, `ComposeManager`) -/

/-- docker constants `NetworkName` and `LabelPrefix` (src/unnamed/part_003). -/
def networkName : Str := "slimdeploy".data

def labelPre : Str := "slimdeploy".data

/-- The dynamic shapes a `ComposeService.Labels interface{}` can hold, as seen
by `getLabelsAsMap`: `nil`, a `map[string]string` (returned *by reference*,
so later writes alias the input), or one of the other shapes
(`map[string]interface{}` / `[]interface{}`), which `getLabelsAsMap` copies
into a fresh map; we carry that case already normalised to its key→value
form. -/
inductive GoLabels
  | nil
  | strMap (m : List (Str × Str))
  | other (m : List (Str × Str))
deriving DecidableEq, Repr

/-- `ComposeService`.  Only the fields `InjectLabels` reads or writes are
modelled (`Networks`, `Labels`); `image` stands in for the untouched payload
fields, which are copied through unchanged. -/
structure ComposeService where
  image : Str
  networks : Option (List Str)
  labels : GoLabels
deriving DecidableEq, Repr

/-- `ComposeFile`.  `services` is the Go map as an association list in
iteration order; `networks` is the key set of the top-level networks map
(`nil` kept distinct from empty, since `InjectLabels` branches on it, and the
values — always rewritten to `{external: true}` — carry no information the
claims mention). -/
structure ComposeFile where
  version : Str
  services : List (Str × ComposeService)
  networks : Option (List Str)
deriving DecidableEq, Repr

/-- `getLabelsAsMap`. -/
def getLabelsAsMap : GoLabels → List (Str × Str)
  | .nil => []
  | .strMap m => m
  | .other m => m

/-- `getNetworksAsList`. -/
def getNetworksAsList : Option (List Str) → List Str
  | none => []
  | some l => l

/-- `findMainService`: the hard-coded candidate list, else the first service. -/
def findMainService (compose : ComposeFile) : Str :=
  match (["app".data, "web".data, "api".data, "server".data,
      "frontend".data, "backend".data, "nginx".data] : List Str).find?
      (fun c => compose.services.any (fun sv => sv.1 = c)) with
  | some c => c
  | none =>
    match compose.services with
    | [] => []
    | sv :: _ => sv.1

/-- The main-service test inside `InjectLabels`' service loop:
`name == mainService || (mainService == "" && name == cm.findMainService(compose))`. -/
def isMainService (compose : ComposeFile) (mainService name : Str) : Bool :=
  name = mainService || (mainService = [] && name = findMainService compose)

/-- The label-stripping step of `InjectLabels`' loop: remove conflicting
Traefik labels, keeping only `traefik.enable`. -/
def strippedLabels (sv : ComposeService) : List (Str × Str) :=
  (getLabelsAsMap sv.labels).filter
    (fun kv => ¬ (strStartsWith "traefik.".data kv.1 ∧ kv.1 ≠ "traefik.enable".data))

/-- ... then add the SlimDeploy management labels. -/
def managedLabels (p : Project) (sv : ComposeService) : List (Str × Str) :=
  mapInsert (labelPre ++ ".project".data) p.id
    (mapInsert (labelPre ++ ".managed".data) "true".data (strippedLabels sv))

/-- The per-service body of `InjectLabels`' loop: returns the final label map
(also the content of the aliased input map in the `strMap` case). -/
def injectServiceLabels (p : Project) (compose : ComposeFile) (baseDomain mainService name : Str)
    (sv : ComposeService) : List (Str × Str) :=
  if isMainService compose mainService name then
    mapInsertAll (generateTraefikLabelsForCompose p baseDomain name) (managedLabels p sv)
  else managedLabels p sv

/-- The per-service network rewrite: append the shared network if missing. -/
def injectServiceNetworks (sv : ComposeService) : List Str :=
  if (getNetworksAsList sv.networks).contains networkName then getNetworksAsList sv.networks
  else getNetworksAsList sv.networks ++ [networkName]

/-- One transformed service (the value written into `modified.Services`). -/
def injectService (p : Project) (compose : ComposeFile) (baseDomain mainService name : Str)
    (sv : ComposeService) : ComposeService :=
  { sv with
    networks := some (injectServiceNetworks sv),
    labels := .strMap (injectServiceLabels p compose baseDomain mainService name sv) }

/-- The top-level networks map after `modified.Networks[NetworkName] = …`. -/
def injectNetworks (compose : ComposeFile) : List Str :=
  if (getNetworksAsList compose.networks).contains networkName then
    getNetworksAsList compose.networks
  else getNetworksAsList compose.networks ++ [networkName]

/-- `ComposeManager.InjectLabels`, returning the pair
(returned document, input document after the call).

The Go function copies the struct and the `Services` map shallowly, so two
mutations reach the caller's document: (1) when `compose.Networks` is non-nil,
`modified.Networks` is the *same* map and gains the `slimdeploy` key; (2) when
a service's `Labels` holds a `map[string]string`, `getLabelsAsMap` returns
that very map and every delete/insert lands in it.  The second component makes
those aliased writes explicit. -/
def injectLabels (p : Project) (compose : ComposeFile) (baseDomain mainService : Str) :
    ComposeFile × ComposeFile :=
  ({ compose with
      networks := some (injectNetworks compose),
      services := compose.services.map
        (fun sv => (sv.1, injectService p compose baseDomain mainService sv.1 sv.2)) },
   { compose with
      networks :=
        match compose.networks with
        | none => none          -- a fresh map was allocated; the input keeps nil
        | some _ => some (injectNetworks compose),  -- same map object, mutated in place
      services := compose.services.map
        (fun sv =>
          (sv.1,
           match sv.2.labels with
           | .strMap _ =>
             { sv.2 with
               labels :=
                 .strMap (injectServiceLabels p compose baseDomain mainService sv.1 sv.2) }
           | _ => sv.2)) })

/-! ## Project store (src/internal/db/projects.go, `ProjectRepository`)

The sqlite table is modelled as the list of its rows; each SQL statement acts
on every row matching the `WHERE` clause and reports the match count as
`RowsAffected`.  Store-level failures (connection errors) are outside the
model: the claims compare not-found against *successful* execution. -/

/-- `GetByID`: `sql.ErrNoRows` becomes `none` (the Go code returns
`(nil, nil)` in that case), a found row becomes `some row`. -/
def getByID (rows : List Project) (id : Str) : Option Project :=
  rows.find? (fun r => r.id = id)

/-- `GetByName`. -/
def getByName (rows : List Project) (name : Str) : Option Project :=
  rows.find? (fun r => r.name = name)

/-- `Update`: run the UPDATE, then fail with "project not found" when
`RowsAffected` is zero. -/
def updateProject (rows : List Project) (p : Project) : Except Str (List Project) :=
  let affected := rows.countP (fun r => r.id = p.id)
  if affected = 0 then .error "project not found".data
  else .ok (rows.map (fun r => if r.id = p.id then p else r))

/-- `UpdateStatus`: the UPDATE's `RowsAffected` is never read, so a missing id
is a silent success. -/
def updateStatusDB (rows : List Project) (id : Str) (status : ProjectStatus) (msg : Str) :
    Except Str (List Project) :=
  .ok (rows.map (fun r => if r.id = id then { r with status := status, statusMsg := msg } else r))

/-- `UpdateLastCommit`: same shape as `UpdateStatus`, no row-count check. -/
def updateLastCommitDB (rows : List Project) (id : Str) (commit : Str) :
    Except Str (List Project) :=
  .ok (rows.map (fun r => if r.id = id then { r with lastCommit := commit } else r))

/-- `UpdateContainerIDs`: no row-count check either. -/
def updateContainerIDsDB (rows : List Project) (id : Str) (cids : List Str) :
    Except Str (List Project) :=
  .ok (rows.map (fun r => if r.id = id then { r with containerIDs := some cids } else r))

/-- `Delete`: DELETE, then fail with "project not found" when no row matched. -/
def deleteProject (rows : List Project) (id : Str) : Except Str (List Project) :=
  let affected := rows.countP (fun r => r.id = id)
  if affected = 0 then .error "project not found".data
  else .ok (rows.filter (fun r => ¬ r.id = id))

/-! ## Deploy / Restart handlers (src/internal/api/handlers.go)

The handlers act on one project's persisted record; the status writes they
issue (`UpdateStatus`, `UpdateLastCommit`, `UpdateContainerIDs` — whose
returned errors the handlers discard) are modelled as pure record updates.
Calls into git and docker are modelled by a `DeployEnv` of their outcomes
(`none` / `.ok` = success, `some e` / `.error e` = failure with message `e`),
consumed in exactly the source's order. -/

/-- `ProjectRepository.UpdateStatus` restricted to the record it touches. -/
def setStatus (rec : Project) (status : ProjectStatus) (msg : Str) : Project :=
  { rec with status := status, statusMsg := msg }

/-- Outcomes of the external calls one `deployProject` run can make. -/
structure DeployEnv where
  gitExists : Bool
  pullErr : Option Str
  cloneErr : Option Str
  latestCommit : Except Str Str
  pullImageErr : Option Str
  runContainer : Except Str Str
  waitHealthyErr : Option Str
  composeUpErr : Option Str
deriving Repr

/-- `Handler.deployProject`, threading the persisted record: returns the
pipeline result and the record after the run's store writes. -/
def deployProject (env : DeployEnv) (p : Project) (rec : Project) :
    Except Str Unit × Project :=
  -- clone or pull if a git URL is configured; on success record the commit
  let gitStep : Except Str Project :=
    if p.gitURL ≠ [] then
      if env.gitExists then
        match env.pullErr with
        | some e => .error ("failed to pull repository: ".data ++ e)
        | none =>
          match env.latestCommit with
          | .ok c => .ok { rec with lastCommit := c }  -- UpdateLastCommit
          | .error _ => .ok rec                        -- commit read error: skipped
      else
        match env.cloneErr with
        | some e => .error ("failed to clone repository: ".data ++ e)
        | none =>
          match env.latestCommit with
          | .ok c => .ok { rec with lastCommit := c }
          | .error _ => .ok rec
    else .ok rec
  match gitStep with
  | .error e => (.error e, rec)
  | .ok rec1 =>
    -- runtime bring-up
    let runStep : Except Str (List Str) :=
      match p.deployType with
      | .compose =>
        match env.composeUpErr with
        | some e => .error ("docker compose up failed: ".data ++ e)
        | none => .ok []
      | .image =>
        match (if p.image ≠ [] then env.pullImageErr else none) with
        | some e => .error ("failed to pull image: ".data ++ e)
        | none =>
          match env.runContainer with
          | .error e => .error ("failed to run container: ".data ++ e)
          | .ok cid =>
            match env.waitHealthyErr with
            | some e => .error ("container health check failed: ".data ++ e)
            | none => .ok [cid]
    match runStep with
    | .error e => (.error e, rec1)
    | .ok cids =>
      -- UpdateContainerIDs, then UpdateStatus(running, "")
      (.ok (), setStatus { rec1 with containerIDs := some cids } .running [])

/-- `Handler.Deploy` after the project lookup: write `deploying`, run the
pipeline, and on failure write `error` with the failure's message. -/
def deployHandler (env : DeployEnv) (p : Project) (rec : Project) : Project :=
  match deployProject env p (setStatus rec .deploying "Starting deployment...".data) with
  | (.error e, rec1) => setStatus rec1 .error e
  | (.ok _, rec1) => rec1

/-- `Handler.Restart` after the project lookup.  `composeErr` is the
`composeManager.Restart` outcome; `containerErrs` are the per-container
`RestartContainer` outcomes for the image path, whose failures are only
logged.  Returns the final record and the logged failure messages. -/
def restartHandler (p : Project) (composeErr : Option Str) (containerErrs : List (Option Str))
    (rec : Project) : Project × List Str :=
  if p.deployType = .compose then
    match composeErr with
    | some e => (setStatus rec .error e, [e])
    | none => (setStatus rec .running [], [])
  else
    -- for _, containerID := range project.ContainerIDs { … err is logged … }
    let logs := containerErrs.filterMap id
    (setStatus rec .running [], logs)

/-! ## The change watcher (src/internal/watcher/watcher.go) -/

/-- The observable calls one `checkProject` run makes, in order. -/
inductive WEvent
  | checkForUpdates
  | pull
  | updateLastCommit (c : Str)
  | deploy
  | setErrorStatus (e : Str)
deriving DecidableEq, Repr

/-- Outcomes of the external calls `checkProject` can make. -/
structure WatchEnv where
  existsLocal : Bool
  checkForUpdates : Except Str (Bool × Str)
  pullErr : Option Str
  updateLastCommitErr : Option Str
  deployErr : Option Str
deriving Repr

/-- `Watcher.checkProject` as its trace of calls. -/
def checkProject (env : WatchEnv) (p : Project) : List WEvent :=
  if p.gitURL = [] then []
  else if p.status = .deploying then []
  else if ¬ env.existsLocal then []
  else
    match env.checkForUpdates with
    | .error _ => [.checkForUpdates]
    | .ok (hasUpdates, newCommit) =>
      if ¬ hasUpdates then [.checkForUpdates]
      else
        match env.pullErr with
        | some _ => [.checkForUpdates, .pull]
        | none =>
          -- UpdateLastCommit failure is only logged; deploy still runs
          match env.deployErr with
          | some e =>
            [.checkForUpdates, .pull, .updateLastCommit newCommit, .deploy, .setErrorStatus e]
          | none => [.checkForUpdates, .pull, .updateLastCommit newCommit, .deploy]

/-- `Watcher.checkAll`: `ListAutoDeployEnabled`, then `checkProject` on each
listed project (trace concatenated in scan order). -/
def watcherScan (env : Project → WatchEnv) (rows : List Project) : List WEvent :=
  ((rows.filter (fun p => p.autoDeploy)).map (fun p => checkProject (env p) p)).flatten

/-! ## JSON serialisation (src/unnamed/part_000 wrappers over encoding/json)

`encoding/json` is an external library; its behaviour on `[]string` and
`map[string]string` is modelled here: `Marshal` emits the compact form with
HTML-escaping enabled and map keys sorted; `Unmarshal` parses it back.
Surrogate-pair escapes and invalid UTF-8 (which this data never contains) are
outside the model. -/

/-- Lower-case hex digit. -/
def hexDigit (n : Nat) : Char :=
  if n < 10 then Char.ofNat (48 + n) else Char.ofNat (97 + (n - 10))

/-- A `\uXXXX` escape for a code point below 0x10000. -/
def escU (n : Nat) : Str :=
  ['\\', 'u', hexDigit (n / 4096 % 16), hexDigit (n / 256 % 16),
   hexDigit (n / 16 % 16), hexDigit (n % 16)]

/-- Go `Marshal`'s encoding of one character of a string value
(default `SetEscapeHTML(true)` behaviour). -/
def escChar (c : Char) : Str :=
  if c = '"' then ['\\', '"']
  else if c = '\\' then ['\\', '\\']
  else if c = '\n' then ['\\', 'n']
  else if c = '\r' then ['\\', 'r']
  else if c = '\t' then ['\\', 't']
  else if c = '<' ∨ c = '>' ∨ c = '&' then escU c.toNat
  else if c.toNat < 32 then escU c.toNat
  else if c.toNat = 8232 ∨ c.toNat = 8233 then escU c.toNat
  else [c]

/-- The escaped body of a string literal. -/
def escBody (s : Str) : Str := (s.map escChar).flatten

/-- A whole JSON string literal. -/
def encodeStringLit (s : Str) : Str := '"' :: (escBody s ++ ['"'])

/-- Comma-join. -/
def strIntercalate (sep : Str) : List Str → Str
  | [] => []
  | [s] => s
  | s :: rest => s ++ sep ++ strIntercalate sep rest

/-- `json.Marshal` of a `[]string`. -/
def encodeStringArray (l : List Str) : Str :=
  '[' :: (strIntercalate [','] (l.map encodeStringLit) ++ [']'])

/-- Byte-order (= scalar-order, for valid UTF-8) comparison of keys,
as `Marshal` sorts map keys. -/
def keyLE : Str → Str → Bool
  | [], _ => true
  | _ :: _, [] => false
  | a :: as, b :: bs =>
    if a.toNat < b.toNat then true
    else if b.toNat < a.toNat then false
    else keyLE as bs

/-- `json.Marshal` of a `map[string]string` (keys sorted). -/
def encodeStringMap (m : List (Str × Str)) : Str :=
  '{' ::
    (strIntercalate [',']
        ((m.insertionSort (fun a b => keyLE a.1 b.1)).map
          (fun kv => encodeStringLit kv.1 ++ ':' :: encodeStringLit kv.2)) ++
      ['}'])

/-- Decode one escape letter (the single-character escapes JSON permits). -/
def unescChar (e : Char) : Option Char :=
  if e = '"' then some '"'
  else if e = '\\' then some '\\'
  else if e = '/' then some '/'
  else if e = 'n' then some '\n'
  else if e = 'r' then some '\r'
  else if e = 't' then some '\t'
  else if e = 'b' then some (Char.ofNat 8)
  else if e = 'f' then some (Char.ofNat 12)
  else none

/-- Decode one hex digit. -/
def unhex (c : Char) : Option Nat :=
  if '0' ≤ c ∧ c ≤ '9' then some (c.toNat - 48)
  else if 'a' ≤ c ∧ c ≤ 'f' then some (c.toNat - 97 + 10)
  else if 'A' ≤ c ∧ c ≤ 'F' then some (c.toNat - 65 + 10)
  else none

/-- Parse the body of a string literal after its opening quote; returns the
decoded string and the input after the closing quote. -/
def parseStringBody : Str → Option (Str × Str)
  | [] => none
  | c :: rest =>
    if c = '"' then some ([], rest)
    else if c = '\\' then
      match rest with
      | [] => none
      | e :: rest2 =>
        if e = 'u' then
          match rest2 with
          | a :: b :: c2 :: d :: rest3 =>
            match unhex a, unhex b, unhex c2, unhex d with
            | some ha, some hb, some hc, some hd =>
              (parseStringBody rest3).map
                (fun pr => (Char.ofNat (((ha * 16 + hb) * 16 + hc) * 16 + hd) :: pr.1, pr.2))
            | _, _, _, _ => none
          | _ => none
        else
          match unescChar e with
          | some u => (parseStringBody rest2).map (fun pr => (u :: pr.1, pr.2))
          | none => none
    else (parseStringBody rest).map (fun pr => (c :: pr.1, pr.2))

/-- Parse the elements of a non-empty JSON string array after the opening
bracket; returns the elements and the input after the closing bracket.
The fuel only bounds the number of elements (each element consumes at least
three characters of input, so the wrapper's `s.length` is always enough); it
makes the recursion structural. -/
def parseItemsF : Nat → Str → Option (List Str × Str)
  | 0, _ => none
  | _ + 1, [] => none
  | fuel + 1, c :: rest =>
    if c = '"' then
      match parseStringBody rest with
      | none => none
      | some (s, rest2) =>
        match rest2 with
        | ']' :: rest3 => some ([s], rest3)
        | ',' :: rest3 => (parseItemsF fuel rest3).map (fun pr => (s :: pr.1, pr.2))
        | _ => none
    else none

def parseItems (s : Str) : Option (List Str × Str) := parseItemsF s.length s

/-- Parse the members of a non-empty JSON string-to-string object after the
opening brace; returns the pairs and the input after the closing brace. -/
def parsePairsF : Nat → Str → Option (List (Str × Str) × Str)
  | 0, _ => none
  | _ + 1, [] => none
  | fuel + 1, c :: rest =>
    if c = '"' then
      match parseStringBody rest with
      | none => none
      | some (k, r2) =>
        match r2 with
        | ':' :: '"' :: r3 =>
          match parseStringBody r3 with
          | none => none
          | some (v, r4) =>
            match r4 with
            | '}' :: r5 => some ([(k, v)], r5)
            | ',' :: r5 => (parsePairsF fuel r5).map (fun pr => ((k, v) :: pr.1, pr.2))
            | _ => none
        | _ => none
    else none

def parsePairs (s : Str) : Option (List (Str × Str) × Str) := parsePairsF s.length s

/-- `json.Unmarshal` into `[]string`. -/
def parseStringArray (s : Str) : Option (List Str) :=
  match s with
  | '[' :: ']' :: rest2 => if rest2 = [] then some [] else none
  | '[' :: rest =>
    match parseItems rest with
    | some (items, rest2) => if rest2 = [] then some items else none
    | none => none
  | _ => none

/-- `json.Unmarshal` into `map[string]string` (result as the pair list in
document order). -/
def parseStringMap (s : Str) : Option (List (Str × Str)) :=
  match s with
  | '{' :: '}' :: rest2 => if rest2 = [] then some [] else none
  | '{' :: rest =>
    match parsePairs rest with
    | some (prs, rest2) => if rest2 = [] then some prs else none
    | none => none
  | _ => none

/-! ### The part_000 wrappers -/

/-- `Project.ContainerIDsJSON` (a nil slice serialises to `[]`; `Marshal` on a
`[]string` cannot fail, so the error branch is dead). -/
def containerIDsJSON (p : Project) : Str :=
  match p.containerIDs with
  | none => "[]".data
  | some l => encodeStringArray l

/-- `Project.EnvVarsJSON`. -/
def envVarsJSON (p : Project) : Str :=
  match p.envVars with
  | none => "{}".data
  | some m => encodeStringMap m

/-- `Project.ParseContainerIDs`: the empty blob parses to the empty slice;
anything else goes through `Unmarshal`. -/
def parseContainerIDs (data : Str) : Option (List Str) :=
  if data = [] then some [] else parseStringArray data

/-- `Project.ParseEnvVars`. -/
def parseEnvVars (data : Str) : Option (List (Str × Str)) :=
  if data = [] then some [] else parseStringMap data

/-- Character set of sanitised router names: `[a-z0-9-]`. -/
def validOut (c : Char) : Bool := isRouterChar c || c = '-'

/-! ## Router-level views of a label set (used to state the claims about
"how many routers" a label set defines) -/

/-- The router name a label key belongs to, if it is a router label:
the segment after `traefik.http.routers.` up to the next dot. -/
def extractRouterName (k : Str) : Option Str :=
  if strStartsWith routersPre k then
    some ((k.drop routersPre.length).takeWhile (fun c => c ≠ '.'))
  else none

/-- The distinct router names a label set defines. -/
def routersOf (labels : List (Str × Str)) : List Str :=
  ((labels.map Prod.fst).filterMap extractRouterName).dedup

/-- No label key is a TLS certificate-resolver binding. -/
def noTlsLabels (labels : List (Str × Str)) : Bool :=
  labels.all (fun kv => ¬ strEndsWith ".tls.certresolver".data kv.1)

/-- The watcher events claim C4 counts (Pull, UpdateLastCommit, Deploy). -/
def isSyncEvent : WEvent → Bool
  | .pull => true
  | .updateLastCommit _ => true
  | .deploy => true
  | _ => false

/-- A service "carries routing labels": some label key is a router binding. -/
def hasRoutingLabels (sv : ComposeService) : Bool :=
  (getLabelsAsMap sv.labels).any (fun kv => strStartsWith routersPre kv.1)

/-- The names of the services of a document that carry routing labels. -/
def routedServices (cf : ComposeFile) : List Str :=
  (cf.services.filter (fun nsv => hasRoutingLabels nsv.2)).map Prod.fst

/-! ## Concrete sample data (inputs for witnesses and counterexamples) -/

/-- An image-kind project with one container and a production domain. -/
def demoImage : Project :=
  { id := "id-1".data, name := "demo".data, gitURL := [], branch := "main".data,
    deployType := .image, image := "nginx:alpine".data, domain := "demo.example.com".data,
    useSubdomain := false, port := 8080, envVars := none, autoDeploy := false,
    lastCommit := [], status := .stopped, statusMsg := [],
    containerIDs := some ["c1".data] }

/-- A compose-kind project with a git URL, auto-deploy, and a derived domain. -/
def demoCompose : Project :=
  { id := "id-2".data, name := "shop".data, gitURL := "https://example.com/shop.git".data,
    branch := "main".data, deployType := .compose, image := [],
    domain := [], useSubdomain := true, port := 3000,
    envVars := some [("K".data, "V".data)], autoDeploy := true,
    lastCommit := "aaaa".data, status := .running, statusMsg := [],
    containerIDs := none }

/-- A project with routing disabled: no explicit domain, no derived subdomain. -/
def demoNoDomain : Project :=
  { id := "id-3".data, name := "quiet".data, gitURL := [], branch := "main".data,
    deployType := .image, image := "img".data, domain := [],
    useSubdomain := false, port := 80, envVars := none, autoDeploy := false,
    lastCommit := [], status := .pending, statusMsg := [], containerIDs := none }

/-- A project with a local-development domain. -/
def demoLocal : Project :=
  { id := "id-4".data, name := "app".data, gitURL := [], branch := "main".data,
    deployType := .image, image := "img".data, domain := "app.localhost".data,
    useSubdomain := false, port := 0, envVars := none, autoDeploy := false,
    lastCommit := [], status := .pending, statusMsg := [], containerIDs := none }

/-- A one-service compose document with a named top-level network. -/
def demoComposeFile : ComposeFile :=
  { version := "3".data,
    services := [("db".data,
      { image := "postgres".data, networks := none,
        labels := .other [("traefik.http.routers.old.rule".data, "Host(old)".data)] })],
    networks := some ["mynet".data] }

/-- A two-service compose document ("app" and "db"), no networks section. -/
def demoComposeFile2 : ComposeFile :=
  { version := "3".data,
    services :=
      [("app".data, { image := "app-img".data, networks := none, labels := .nil }),
       ("db".data, { image := "postgres".data, networks := none, labels := .nil })],
    networks := none }

/-- A watcher environment where everything succeeds and the remote moved. -/
def demoWatchEnv : WatchEnv :=
  { existsLocal := true, checkForUpdates := .ok (true, "bbbb".data),
    pullErr := none, updateLastCommitErr := none, deployErr := none }

/-! # Theorems

General-purpose lemmas first, then one theorem per claim (with witnesses and
counterexamples where applicable). -/

theorem keepOrDash_valid (c : Char) : validOut (keepOrDash c) = true := by
  unfold keepOrDash validOut
  by_cases h : isRouterChar c <;> simp [h]

theorem replDD_subset : ∀ s : Str, ∀ c ∈ replDD s, c ∈ s := by
  intro s
  induction s using replDD.induct with
  | case1 => simp [replDD]
  | case2 c => simp [replDD]
  | case3 a b rest h ih =>
    intro c hc
    rw [replDD] at hc
    simp only [h, if_true] at hc
    simp only [Bool.and_eq_true, decide_eq_true_eq] at h
    rcases List.mem_cons.1 hc with hc | hc
    · simp [hc, h.1]
    · have := ih c hc
      simp_all
  | case4 a b rest h ih =>
    intro c hc
    rw [replDD] at hc
    simp only [h, if_false, Bool.false_eq_true] at hc
    rcases List.mem_cons.1 hc with hc | hc
    · simp [hc]
    · have := ih c hc
      simp_all

theorem replDD_length_le : ∀ s : Str, (replDD s).length ≤ s.length := by
  intro s
  induction s using replDD.induct with
  | case1 => simp [replDD]
  | case2 c => simp [replDD]
  | case3 a b rest h ih =>
    rw [replDD]
    simp only [h, if_true, List.length_cons]
    simp at ih ⊢
    omega
  | case4 a b rest h ih =>
    rw [replDD]
    simp only [h, if_false, Bool.false_eq_true, List.length_cons]
    simp at ih ⊢
    omega

theorem replDD_length_lt :
    ∀ s : Str, hasDoubleDash s = true → (replDD s).length < s.length := by
  intro s
  induction s using replDD.induct with
  | case1 => simp [hasDoubleDash]
  | case2 c => simp [hasDoubleDash]
  | case3 a b rest h ih =>
    intro _
    rw [replDD]
    have := replDD_length_le rest
    simp only [h, if_true, List.length_cons]
    omega
  | case4 a b rest h ih =>
    intro hdd
    rw [hasDoubleDash] at hdd
    simp only [h, Bool.false_or] at hdd
    rw [replDD]
    simp only [h, if_false, Bool.false_eq_true, List.length_cons]
    have hlt := ih hdd
    simp only [List.length_cons] at hlt
    omega

theorem collapseDashesFuel_subset :
    ∀ fuel : Nat, ∀ s : Str, ∀ c ∈ collapseDashesFuel fuel s, c ∈ s := by
  intro fuel
  induction fuel with
  | zero => simp [collapseDashesFuel]
  | succ n ih =>
    intro s c hc
    rw [collapseDashesFuel] at hc
    by_cases h : hasDoubleDash s
    · simp only [h, if_true] at hc
      exact replDD_subset s c (ih _ c hc)
    · simp only [h, Bool.false_eq_true, if_false] at hc
      exact hc

theorem collapseDashesFuel_no_dd :
    ∀ fuel : Nat, ∀ s : Str, s.length ≤ fuel →
      hasDoubleDash (collapseDashesFuel fuel s) = false := by
  intro fuel
  induction fuel with
  | zero =>
    intro s hs
    have : s = [] := List.length_eq_zero.1 (Nat.le_zero.1 hs)
    simp [this, collapseDashesFuel, hasDoubleDash]
  | succ n ih =>
    intro s hs
    rw [collapseDashesFuel]
    by_cases h : hasDoubleDash s
    · simp only [h, if_true]
      have := replDD_length_lt s h
      exact ih _ (by omega)
    · have hb : hasDoubleDash s = false := by simpa using h
      simp [hb]

theorem collapseDashesFuel_of_no_dd :
    ∀ fuel : Nat, ∀ s : Str, hasDoubleDash s = false →
      collapseDashesFuel fuel s = s := by
  intro fuel s h
  cases fuel with
  | zero => rw [collapseDashesFuel]
  | succ n => rw [collapseDashesFuel]; simp [h]

theorem collapseDashes_subset : ∀ s : Str, ∀ c ∈ collapseDashes s, c ∈ s :=
  fun s => collapseDashesFuel_subset s.length s

theorem collapseDashes_no_dd (s : Str) : hasDoubleDash (collapseDashes s) = false :=
  collapseDashesFuel_no_dd s.length s (Nat.le_refl _)

/-- Dropping elements from the front or the back cannot create a `--`. -/
theorem hasDoubleDash_append_left :
    ∀ t s : Str, hasDoubleDash s = true → hasDoubleDash (t ++ s) = true := by
  intro t
  induction t with
  | nil => simp
  | cons a t ih =>
    intro s hs
    have hmid := ih s hs
    cases h : t ++ s with
    | nil => rw [h] at hmid; simp [hasDoubleDash] at hmid
    | cons b u =>
      have : (a :: t) ++ s = a :: b :: u := by simp [h]
      rw [this, hasDoubleDash]
      rw [h] at hmid
      simp [hmid]

theorem hasDoubleDash_append_right :
    ∀ s u : Str, hasDoubleDash s = true → hasDoubleDash (s ++ u) = true := by
  intro s
  induction s using hasDoubleDash.induct with
  | case1 => intro u h; simp [hasDoubleDash] at h
  | case2 c => intro u h; simp [hasDoubleDash] at h
  | case3 a b rest ih =>
    intro u h
    rw [hasDoubleDash] at h
    rw [show (a :: b :: rest) ++ u = a :: b :: (rest ++ u) by simp, hasDoubleDash]
    rcases Bool.or_eq_true_iff.1 h with h1 | h1
    · rw [h1]; simp
    · have h2 := ih u h1
      rw [show (b :: rest) ++ u = b :: (rest ++ u) by simp] at h2
      rw [h2]
      simp

theorem dropWhile_suffix_exists (p : Char → Bool) :
    ∀ l : Str, ∃ t, t ++ l.dropWhile p = l := by
  intro l
  induction l with
  | nil => exact ⟨[], rfl⟩
  | cons a l ih =>
    by_cases h : p a
    · obtain ⟨t, ht⟩ := ih
      exact ⟨a :: t, by simp [List.dropWhile_cons, h, ht]⟩
    · exact ⟨[], by simp [List.dropWhile_cons, h]⟩

theorem dropWhile_head_not (p : Char → Bool) :
    ∀ l : Str, ∀ c, (l.dropWhile p).head? = some c → p c = false := by
  intro l
  induction l with
  | nil => simp
  | cons a l ih =>
    intro c hc
    by_cases h : p a
    · rw [List.dropWhile_cons] at hc
      simp only [h, if_true] at hc
      exact ih c hc
    · rw [List.dropWhile_cons] at hc
      simp only [h, Bool.false_eq_true, if_false, List.head?_cons, Option.some.injEq] at hc
      subst hc
      simpa using h

theorem dropWhile_eq_self_of_head (p : Char → Bool) (l : Str)
    (h : ∀ c, l.head? = some c → p c = false) : l.dropWhile p = l := by
  cases l with
  | nil => rfl
  | cons a t =>
    have := h a (by simp)
    simp [List.dropWhile_cons, this]

/-- `trimDashes` only removes characters. -/
theorem trimDashes_subset : ∀ s : Str, ∀ c ∈ trimDashes s, c ∈ s := by
  intro s c hc
  obtain ⟨t2, ht2⟩ := dropWhile_suffix_exists (fun x => x = '-')
    ((s.dropWhile (fun x => x = '-')).reverse)
  have hpre : trimDashes s ++ t2.reverse = s.dropWhile (fun x => x = '-') := by
    have hx := congrArg List.reverse ht2
    simpa [trimDashes, List.reverse_append] using hx
  obtain ⟨t1, ht1⟩ := dropWhile_suffix_exists (fun x => x = '-') s
  have hc1 : c ∈ s.dropWhile (fun x => x = '-') := by
    rw [← hpre]; exact List.mem_append_left _ hc
  rw [← ht1]
  exact List.mem_append_right _ hc1

theorem trimDashes_no_dd (s : Str) (h : hasDoubleDash s = false) :
    hasDoubleDash (trimDashes s) = false := by
  by_contra hdd
  simp only [Bool.not_eq_false] at hdd
  obtain ⟨t2, ht2⟩ := dropWhile_suffix_exists (fun x => x = '-')
    ((s.dropWhile (fun x => x = '-')).reverse)
  have hpre : trimDashes s ++ t2.reverse = s.dropWhile (fun x => x = '-') := by
    have hx := congrArg List.reverse ht2
    simpa [trimDashes, List.reverse_append] using hx
  obtain ⟨t1, ht1⟩ := dropWhile_suffix_exists (fun x => x = '-') s
  have h1 : hasDoubleDash (trimDashes s ++ t2.reverse) = true :=
    hasDoubleDash_append_right _ _ hdd
  rw [hpre] at h1
  have h2 : hasDoubleDash (t1 ++ s.dropWhile (fun x => x = '-')) = true :=
    hasDoubleDash_append_left _ _ h1
  rw [ht1] at h2
  rw [h2] at h
  exact Bool.noConfusion h

theorem trimDashes_head (s : Str) :
    ∀ c, (trimDashes s).head? = some c → c ≠ '-' := by
  intro c hc
  obtain ⟨t2, ht2⟩ := dropWhile_suffix_exists (fun x => x = '-')
    ((s.dropWhile (fun x => x = '-')).reverse)
  have hpre : trimDashes s ++ t2.reverse = s.dropWhile (fun x => x = '-') := by
    have hx := congrArg List.reverse ht2
    simpa [trimDashes, List.reverse_append] using hx
  cases hrev : trimDashes s with
  | nil => rw [hrev] at hc; simp at hc
  | cons a u =>
    rw [hrev] at hc
    simp only [List.head?_cons, Option.some.injEq] at hc
    subst hc
    rw [hrev] at hpre
    have hhead : (s.dropWhile (fun x => x = '-')).head? = some a := by
      rw [← hpre]; simp
    have := dropWhile_head_not (fun x => x = '-') s a hhead
    simpa using this

theorem trimDashes_last (s : Str) :
    ∀ c, (trimDashes s).getLast? = some c → c ≠ '-' := by
  intro c hc
  unfold trimDashes at hc
  rw [List.getLast?_reverse] at hc
  have := dropWhile_head_not (fun x => x = '-') _ c hc
  simpa using this

theorem sanitize_chars (n : Str) :
    ∀ c ∈ sanitizeRouterName n, validOut c = true := by
  intro c hc
  unfold sanitizeRouterName at hc
  have h1 := trimDashes_subset _ c hc
  have h2 := collapseDashes_subset _ c h1
  obtain ⟨d, _, hd⟩ := List.mem_map.1 h2
  rw [← hd]
  exact keepOrDash_valid d

theorem sanitize_no_dd (n : Str) :
    hasDoubleDash (sanitizeRouterName n) = false := by
  unfold sanitizeRouterName
  exact trimDashes_no_dd _ (collapseDashes_no_dd _)

theorem sanitize_head (n : Str) :
    ∀ c, (sanitizeRouterName n).head? = some c → c ≠ '-' := by
  unfold sanitizeRouterName
  exact trimDashes_head _

theorem sanitize_last (n : Str) :
    ∀ c, (sanitizeRouterName n).getLast? = some c → c ≠ '-' := by
  unfold sanitizeRouterName
  exact trimDashes_last _

theorem goToLower_valid (c : Char) (h : validOut c = true) : goToLower c = c := by
  unfold goToLower
  rcases Bool.or_eq_true_iff.1 h with h1 | h1
  · rcases Bool.or_eq_true_iff.1 h1 with h2 | h2
    · rw [if_neg]
      rintro ⟨hA, hZ⟩
      simp only [Bool.and_eq_true, decide_eq_true_eq] at h2
      exact absurd (le_trans h2.1 hZ) (by decide)
    · rw [if_neg]
      rintro ⟨hA, hZ⟩
      simp only [Bool.and_eq_true, decide_eq_true_eq] at h2
      exact absurd (le_trans hA h2.2) (by decide)
  · simp only [decide_eq_true_eq] at h1
    subst h1
    rw [if_neg]
    rintro ⟨hA, hZ⟩
    exact absurd hA (by decide)

theorem keepOrDash_valid_id (c : Char) (h : validOut c = true) : keepOrDash c = c := by
  unfold keepOrDash
  rcases Bool.or_eq_true_iff.1 h with h1 | h1
  · simp [h1]
  · simp only [decide_eq_true_eq] at h1
    subst h1
    rw [if_neg]
    simp [isRouterChar]

theorem map_id_of_forall {f : Char → Char} :
    ∀ l : Str, (∀ c ∈ l, f c = c) → l.map f = l := by
  intro l h
  induction l with
  | nil => rfl
  | cons a t ih =>
    simp only [List.map_cons, h a (by simp), List.cons.injEq, true_and]
    exact ih (fun c hc => h c (by simp [hc]))

theorem sanitize_idem (n : Str) :
    sanitizeRouterName (sanitizeRouterName n) = sanitizeRouterName n := by
  set y := sanitizeRouterName n with hy
  have hvalid : ∀ c ∈ y, validOut c = true := sanitize_chars n
  have hmap1 : y.map goToLower = y :=
    map_id_of_forall y (fun c hc => goToLower_valid c (hvalid c hc))
  have hmap2 : y.map keepOrDash = y :=
    map_id_of_forall y (fun c hc => keepOrDash_valid_id c (hvalid c hc))
  have hnodd : hasDoubleDash y = false := sanitize_no_dd n
  have hcol : collapseDashes y = y := by
    unfold collapseDashes
    exact collapseDashesFuel_of_no_dd y.length y hnodd
  have htrim : trimDashes y = y := by
    unfold trimDashes
    have h1 : y.dropWhile (fun c => c = '-') = y := by
      apply dropWhile_eq_self_of_head
      intro c hc
      have := sanitize_head n c hc
      simpa using this
    rw [h1]
    have h2 : y.reverse.dropWhile (fun c => c = '-') = y.reverse := by
      apply dropWhile_eq_self_of_head
      intro c hc
      rw [List.head?_reverse] at hc
      have := sanitize_last n c hc
      simpa using this
    rw [h2, List.reverse_reverse]
  show trimDashes (collapseDashes ((y.map goToLower).map keepOrDash)) = y
  rw [hmap1, hmap2, hcol, htrim]

/-- Claim C6: for every input string, the router-identifier derivation
(`sanitizeRouterName`) is total and idempotent — re-deriving from its own
output returns it unchanged — and its output contains only characters in
`[a-z0-9-]`, with no leading hyphen, no trailing hyphen, and no two
consecutive hyphens. -/
theorem c6_router_name_idempotent_total (s : Str) :
    sanitizeRouterName (sanitizeRouterName s) = sanitizeRouterName s ∧
    (∀ c ∈ sanitizeRouterName s,
      ('a' ≤ c ∧ c ≤ 'z') ∨ ('0' ≤ c ∧ c ≤ '9') ∨ c = '-') ∧
    (∀ c, (sanitizeRouterName s).head? = some c → c ≠ '-') ∧
    (∀ c, (sanitizeRouterName s).getLast? = some c → c ≠ '-') ∧
    hasDoubleDash (sanitizeRouterName s) = false := by
  refine ⟨sanitize_idem s, ?_, sanitize_head s, sanitize_last s, sanitize_no_dd s⟩
  intro c hc
  have h := sanitize_chars s c hc
  unfold validOut isRouterChar at h
  simp only [Bool.or_eq_true, Bool.and_eq_true, decide_eq_true_eq] at h
  tauto

/-- Witness for C6 at the concrete input `"My App 7!"` (whose derivation is
`"my-app-7"`), discharging the membership and head hypotheses at the concrete
character `'m'`. -/
theorem c6_router_name_witness :
    sanitizeRouterName (sanitizeRouterName ("My App 7!".data)) =
      sanitizeRouterName ("My App 7!".data) ∧
    (('a' ≤ 'm' ∧ 'm' ≤ 'z') ∨ ('0' ≤ 'm' ∧ 'm' ≤ '9') ∨ 'm' = '-') ∧
    'm' ≠ '-' := by
  refine ⟨(c6_router_name_idempotent_total ("My App 7!".data)).1, ?_, ?_⟩
  · exact (c6_router_name_idempotent_total ("My App 7!".data)).2.1 'm' (by decide)
  · exact (c6_router_name_idempotent_total ("My App 7!".data)).2.2.1 'm' (by decide)

/-- Claim C7: effective-domain resolution returns the explicit domain whenever
it is non-empty; else `<name>.<baseDomain>` when derive-subdomain is set and
the base domain is non-empty; else the empty domain — and with an empty
effective domain `GenerateTraefikLabels` returns the empty label set. -/
theorem c7_effective_domain (p : Project) (baseDomain : Str) :
    (p.domain ≠ [] → getEffectiveDomain p baseDomain = p.domain) ∧
    (p.domain = [] → p.useSubdomain = true → baseDomain ≠ [] →
      getEffectiveDomain p baseDomain = p.name ++ ".".data ++ baseDomain) ∧
    (p.domain = [] → (p.useSubdomain = false ∨ baseDomain = []) →
      getEffectiveDomain p baseDomain = []) ∧
    (getEffectiveDomain p baseDomain = [] → generateTraefikLabels p baseDomain = []) := by
  refine ⟨?_, ?_, ?_, ?_⟩
  · intro h; simp [getEffectiveDomain, h]
  · intro h1 h2 h3; simp [getEffectiveDomain, h1, h2, h3]
  · intro h1 h2
    rcases h2 with h2 | h2 <;> simp [getEffectiveDomain, h1, h2]
  · intro h
    unfold generateTraefikLabels traefikLabelsCore
    simp [h]

/-- Witness for C7: the explicit domain of `demoImage` wins over any base
domain, and `demoNoDomain` (no domain, no derive-subdomain) produces the
empty label set. -/
theorem c7_effective_domain_witness :
    getEffectiveDomain demoImage "example.org".data = "demo.example.com".data ∧
    getEffectiveDomain demoNoDomain "example.org".data = [] ∧
    generateTraefikLabels demoNoDomain "example.org".data = [] := by
  refine ⟨?_, ?_, ?_⟩
  · exact (c7_effective_domain demoImage ("example.org".data)).1 (by decide)
  · exact (c7_effective_domain demoNoDomain ("example.org".data)).2.2.1 rfl (Or.inl rfl)
  · exact (c7_effective_domain demoNoDomain ("example.org".data)).2.2.2
      ((c7_effective_domain demoNoDomain ("example.org".data)).2.2.1 rfl (Or.inl rfl))

/-! ### String-shape lemmas for the router-label theorems -/

theorem strStartsWith_append_self : ∀ p x : Str, strStartsWith p (p ++ x) = true := by
  intro p
  induction p with
  | nil => intro x; rfl
  | cons a ps ih => intro x; simp [strStartsWith, ih]

theorem strStartsWith_append_of_le :
    ∀ p a b : Str, p.length ≤ a.length → strStartsWith p (a ++ b) = strStartsWith p a := by
  intro p
  induction p with
  | nil => intro a b _; rfl
  | cons x ps ih =>
    intro a b h
    cases a with
    | nil => simp at h
    | cons y as =>
      rw [List.cons_append]
      rw [strStartsWith, strStartsWith]
      rw [ih as b (by simpa using h)]

theorem strStartsWith_head :
    ∀ (a : Char) (ps s : Str), strStartsWith (a :: ps) s = true → s.head? = some a := by
  intro a ps s h
  cases s with
  | nil => simp [strStartsWith] at h
  | cons b t =>
    rw [strStartsWith] at h
    simp only [Bool.and_eq_true, decide_eq_true_eq] at h
    simp [h.1]

theorem strEndsWith_last (suf s : Str) (h : strEndsWith suf s = true) :
    ∀ c, suf.getLast? = some c → s.getLast? = some c := by
  intro c hc
  unfold strEndsWith at h
  rw [← List.head?_reverse] at hc
  cases hrev : suf.reverse with
  | nil => rw [hrev] at hc; simp at hc
  | cons a t =>
    rw [hrev] at hc h
    simp only [List.head?_cons, Option.some.injEq] at hc
    subst hc
    have := strStartsWith_head a t s.reverse h
    rw [List.head?_reverse] at this
    exact this

theorem getLast?_append_right : ∀ a b : Str, b ≠ [] → (a ++ b).getLast? = b.getLast? := by
  intro a b hb
  rw [List.getLast?_append]
  cases hx : b.getLast? with
  | some c => simp
  | none =>
    cases b with
    | nil => exact absurd rfl hb
    | cons y t => simp at hx

theorem takeWhile_ne_dot_append (r x : Str) (hr : ∀ c ∈ r, c ≠ '.') (hx : x.head? = some '.') :
    (r ++ x).takeWhile (fun c => c ≠ '.') = r := by
  induction r with
  | nil =>
    cases x with
    | nil => simp at hx
    | cons a t =>
      simp only [List.head?_cons, Option.some.injEq] at hx
      subst hx
      simp [List.takeWhile_cons]
  | cons a rs ih =>
    have ha : a ≠ '.' := hr a (by simp)
    rw [List.cons_append, List.takeWhile_cons]
    have hih := ih (fun c hc => hr c (by simp [hc]))
    rw [if_pos (by simpa using ha), hih]

theorem validOut_ne_dot (c : Char) (h : validOut c = true) : c ≠ '.' := by
  intro heq
  subst heq
  revert h
  decide

theorem sanitize_ne_dot (n : Str) : ∀ c ∈ sanitizeRouterName n, c ≠ '.' :=
  fun c hc => validOut_ne_dot c (sanitize_chars n c hc)

theorem extract_enable : extractRouterName ("traefik.enable".data) = none := by decide

theorem extract_network : extractRouterName ("traefik.docker.network".data) = none := by
  decide

theorem extract_service (n x : Str) :
    extractRouterName ("traefik.http.services.".data ++ n ++ x) = none := by
  unfold extractRouterName
  rw [show "traefik.http.services.".data ++ n ++ x
      = "traefik.http.services.".data ++ (n ++ x) from by simp]
  rw [strStartsWith_append_of_le _ _ _ (by decide)]
  rw [show strStartsWith routersPre ("traefik.http.services.".data) = false from by decide]
  simp

theorem extract_router (n x : Str) (hn : ∀ c ∈ n, c ≠ '.') (hx : x.head? = some '.') :
    extractRouterName (routersPre ++ n ++ x) = some n := by
  unfold extractRouterName
  rw [show routersPre ++ n ++ x = routersPre ++ (n ++ x) from by simp]
  rw [strStartsWith_append_self]
  simp only [if_pos]
  rw [List.drop_left]
  exact congrArg some (takeWhile_ne_dot_append n x hn hx)

theorem not_endsWith_certresolver (a b : Str) (hb : b ≠ [])
    (hlast : b.getLast? ≠ some 'r') :
    strEndsWith ".tls.certresolver".data (a ++ b) = false := by
  by_contra h
  simp only [Bool.not_eq_false] at h
  have h2 := strEndsWith_last _ _ h 'r' (by decide)
  rw [getLast?_append_right a b hb] at h2
  exact hlast h2

theorem routersOf_local (r d : Str) (port : Nat) (hr : ∀ c ∈ r, c ≠ '.') :
    routersOf (baseLabels r port ++ localRouterLabels r d) = [r] := by
  have he4 : extractRouterName (routersPre ++ r ++ ".rule".data) = some r :=
    extract_router r _ hr (by decide)
  have he5 : extractRouterName (routersPre ++ r ++ ".entrypoints".data) = some r :=
    extract_router r _ hr (by decide)
  unfold routersOf
  rw [show (baseLabels r port ++ localRouterLabels r d).map Prod.fst
      = ["traefik.enable".data,
         "traefik.http.services.".data ++ r ++ ".loadbalancer.server.port".data,
         "traefik.docker.network".data,
         routersPre ++ r ++ ".rule".data,
         routersPre ++ r ++ ".entrypoints".data] from rfl]
  rw [List.filterMap_cons_none extract_enable,
    List.filterMap_cons_none (extract_service r _),
    List.filterMap_cons_none extract_network,
    List.filterMap_cons_some he4,
    List.filterMap_cons_some he5,
    List.filterMap_nil]
  rw [List.dedup_cons_of_mem (by simp)]
  rw [List.dedup_cons_of_not_mem (by simp), List.dedup_nil]

theorem routersOf_prod (r d : Str) (port : Nat) (hr : ∀ c ∈ r, c ≠ '.') :
    routersOf (baseLabels r port ++ prodRouterLabels r d) = [r ++ "-http".data, r] := by
  have hrH : ∀ c ∈ r ++ "-http".data, c ≠ '.' := by
    intro c hc
    rcases List.mem_append.1 hc with h | h
    · exact hr c h
    · exact (by decide : ∀ x ∈ ("-http".data : Str), x ≠ '.') c h
  have hne : ¬ (r ++ "-http".data = r) := by
    intro h
    have := congrArg List.length h
    simp at this
  have hf1 : extractRouterName (routersPre ++ r ++ "-http".data ++ ".rule".data)
      = some (r ++ "-http".data) := by
    rw [show routersPre ++ r ++ "-http".data ++ ".rule".data
        = routersPre ++ (r ++ "-http".data) ++ ".rule".data from by simp]
    exact extract_router _ _ hrH (by decide)
  have hf2 : extractRouterName (routersPre ++ r ++ "-http".data ++ ".entrypoints".data)
      = some (r ++ "-http".data) := by
    rw [show routersPre ++ r ++ "-http".data ++ ".entrypoints".data
        = routersPre ++ (r ++ "-http".data) ++ ".entrypoints".data from by simp]
    exact extract_router _ _ hrH (by decide)
  have hf3 : extractRouterName (routersPre ++ r ++ "-http".data ++ ".middlewares".data)
      = some (r ++ "-http".data) := by
    rw [show routersPre ++ r ++ "-http".data ++ ".middlewares".data
        = routersPre ++ (r ++ "-http".data) ++ ".middlewares".data from by simp]
    exact extract_router _ _ hrH (by decide)
  have he4 : extractRouterName (routersPre ++ r ++ ".rule".data) = some r :=
    extract_router r _ hr (by decide)
  have he5 : extractRouterName (routersPre ++ r ++ ".entrypoints".data) = some r :=
    extract_router r _ hr (by decide)
  have hf6 : extractRouterName (routersPre ++ r ++ ".tls".data ++ ".certresolver".data)
      = some r := by
    rw [show routersPre ++ r ++ ".tls".data ++ ".certresolver".data
        = routersPre ++ r ++ (".tls".data ++ ".certresolver".data) from by simp]
    exact extract_router r _ hr (by decide)
  unfold routersOf
  rw [show (baseLabels r port ++ prodRouterLabels r d).map Prod.fst
      = ["traefik.enable".data,
         "traefik.http.services.".data ++ r ++ ".loadbalancer.server.port".data,
         "traefik.docker.network".data,
         routersPre ++ r ++ "-http".data ++ ".rule".data,
         routersPre ++ r ++ "-http".data ++ ".entrypoints".data,
         routersPre ++ r ++ "-http".data ++ ".middlewares".data,
         routersPre ++ r ++ ".rule".data,
         routersPre ++ r ++ ".entrypoints".data,
         routersPre ++ r ++ ".tls".data ++ ".certresolver".data] from rfl]
  rw [List.filterMap_cons_none extract_enable,
    List.filterMap_cons_none (extract_service r _),
    List.filterMap_cons_none extract_network,
    List.filterMap_cons_some hf1,
    List.filterMap_cons_some hf2,
    List.filterMap_cons_some hf3,
    List.filterMap_cons_some he4,
    List.filterMap_cons_some he5,
    List.filterMap_cons_some hf6,
    List.filterMap_nil]
  rw [List.dedup_cons_of_mem (by simp), List.dedup_cons_of_mem (by simp),
    List.dedup_cons_of_not_mem (by simp [hne]), List.dedup_cons_of_mem (by simp),
    List.dedup_cons_of_mem (by simp), List.dedup_cons_of_not_mem (by simp),
    List.dedup_nil]

theorem noTls_local (r d : Str) (port : Nat) :
    noTlsLabels (baseLabels r port ++ localRouterLabels r d) = true := by
  have h1 : strEndsWith ".tls.certresolver".data ("traefik.enable".data) = false := by decide
  have h2 : strEndsWith ".tls.certresolver".data
      ("traefik.http.services.".data ++ r ++ ".loadbalancer.server.port".data) = false :=
    not_endsWith_certresolver _ _ (by decide) (by decide)
  have h3 : strEndsWith ".tls.certresolver".data ("traefik.docker.network".data) = false := by
    decide
  have h4 : strEndsWith ".tls.certresolver".data (routersPre ++ r ++ ".rule".data) = false :=
    not_endsWith_certresolver _ _ (by decide) (by decide)
  have h5 : strEndsWith ".tls.certresolver".data
      (routersPre ++ r ++ ".entrypoints".data) = false :=
    not_endsWith_certresolver _ _ (by decide) (by decide)
  unfold noTlsLabels
  rw [show baseLabels r port ++ localRouterLabels r d
      = [("traefik.enable".data, "true".data),
         ("traefik.http.services.".data ++ r ++ ".loadbalancer.server.port".data,
          natToStr port),
         ("traefik.docker.network".data, "slimdeploy".data),
         (routersPre ++ r ++ ".rule".data, hostRule d),
         (routersPre ++ r ++ ".entrypoints".data, "web".data)] from rfl]
  rw [List.all_cons, List.all_cons, List.all_cons, List.all_cons, List.all_cons,
    List.all_nil]
  simp only []
  rw [h1, h2, h3, h4, h5]
  rfl

/-- Claim C8: with a non-empty effective domain, a local domain
(suffix `.localhost` or exactly `localhost`) yields exactly one router, on the
HTTP entrypoint `web` and with no TLS certificate-resolver label; any other
domain yields exactly two routers — an HTTP router carrying the
redirect-to-HTTPS middleware and an HTTPS router (entrypoint `websecure`)
carrying the automatic certificate-resolver label. -/
theorem c8_local_vs_prod_routers (p : Project) (baseDomain : Str)
    (hd : getEffectiveDomain p baseDomain ≠ []) :
    (isLocalDomain (getEffectiveDomain p baseDomain) = true →
      routersOf (generateTraefikLabels p baseDomain) = [sanitizeRouterName p.name] ∧
      (routersPre ++ sanitizeRouterName p.name ++ ".entrypoints".data, "web".data)
        ∈ generateTraefikLabels p baseDomain ∧
      noTlsLabels (generateTraefikLabels p baseDomain) = true) ∧
    (isLocalDomain (getEffectiveDomain p baseDomain) = false →
      routersOf (generateTraefikLabels p baseDomain) =
        [sanitizeRouterName p.name ++ "-http".data, sanitizeRouterName p.name] ∧
      (routersPre ++ sanitizeRouterName p.name ++ "-http".data ++ ".middlewares".data,
        "redirect-to-https@docker".data) ∈ generateTraefikLabels p baseDomain ∧
      (routersPre ++ sanitizeRouterName p.name ++ "-http".data ++ ".entrypoints".data,
        "web".data) ∈ generateTraefikLabels p baseDomain ∧
      (routersPre ++ sanitizeRouterName p.name ++ ".entrypoints".data, "websecure".data)
        ∈ generateTraefikLabels p baseDomain ∧
      (routersPre ++ sanitizeRouterName p.name ++ ".tls".data ++ ".certresolver".data,
        "letsencrypt".data) ∈ generateTraefikLabels p baseDomain) := by
  have hr := sanitize_ne_dot p.name
  unfold generateTraefikLabels traefikLabelsCore
  rw [if_neg hd]
  constructor
  · intro hloc
    rw [if_pos hloc]
    refine ⟨routersOf_local _ _ _ hr, ?_, noTls_local _ _ _⟩
    refine List.mem_append_right _ ?_
    unfold localRouterLabels
    exact .tail _ (.head _)
  · intro hloc
    rw [hloc, if_neg Bool.false_ne_true]
    refine ⟨routersOf_prod _ _ _ hr, ?_, ?_, ?_, ?_⟩ <;> refine List.mem_append_right _ ?_ <;>
      unfold prodRouterLabels
    · exact .tail _ (.tail _ (.head _))
    · exact .tail _ (.head _)
    · exact .tail _ (.tail _ (.tail _ (.tail _ (.head _))))
    · exact .tail _ (.tail _ (.tail _ (.tail _ (.tail _ (.head _)))))

/-- Witness for C8 at `demoLocal` (`app.localhost`): exactly one router, no
TLS label. -/
theorem c8_local_vs_prod_routers_witness :
    routersOf (generateTraefikLabels demoLocal []) = [sanitizeRouterName demoLocal.name] ∧
    noTlsLabels (generateTraefikLabels demoLocal []) = true := by
  have h := (c8_local_vs_prod_routers demoLocal [] (by decide)).1 (by decide)
  exact ⟨h.1, h.2.2⟩

/-- Counterexample to claim C1 as stated: for a project of the image kind
whose container restart fails (the failure is logged, as the second component
records), the handler still persists `running`, not `error`. -/
theorem c1_restart_counterexample :
    (restartHandler demoImage none [some "restart failed".data] demoImage).1.status
      = ProjectStatus.running ∧
    (restartHandler demoImage none [some "restart failed".data] demoImage).1.status
      ≠ ProjectStatus.error ∧
    (restartHandler demoImage none [some "restart failed".data] demoImage).2
      = ["restart failed".data] := by
  refine ⟨rfl, by decide, rfl⟩

/-- Claim C1 (amended): Restart persists the status regardless of the previous
status; for the compose kind it sets `running` on success and `error` with the
failure message on failure, while for the image kind it sets `running`
unconditionally — per-container restart failures are only logged. -/
theorem c1_restart_amended (p : Project) (composeErr : Option Str)
    (containerErrs : List (Option Str)) (rec : Project) :
    (p.deployType = .compose →
      (composeErr = none →
        (restartHandler p composeErr containerErrs rec).1.status = .running ∧
        (restartHandler p composeErr containerErrs rec).1.statusMsg = []) ∧
      (∀ e, composeErr = some e →
        (restartHandler p composeErr containerErrs rec).1.status = .error ∧
        (restartHandler p composeErr containerErrs rec).1.statusMsg = e)) ∧
    (p.deployType = .image →
      (restartHandler p composeErr containerErrs rec).1.status = .running ∧
      (restartHandler p composeErr containerErrs rec).1.statusMsg = []) := by
  unfold restartHandler setStatus
  constructor
  · intro hc
    rw [if_pos hc]
    constructor
    · intro he; subst he; simp
    · intro e he; subst he; simp
  · intro hi
    rw [if_neg (by simp [hi])]
    simp

/-- Witness for C1 (amended): a failing compose restart ends in `error`, a
failing image-container restart still ends in `running`. -/
theorem c1_restart_amended_witness :
    (restartHandler demoCompose (some "compose restart failed".data) [] demoCompose).1.status
      = ProjectStatus.error ∧
    (restartHandler demoImage none [some "x".data] demoImage).1.status
      = ProjectStatus.running := by
  constructor
  · exact (((c1_restart_amended demoCompose (some "compose restart failed".data) []
      demoCompose).1 rfl).2 ("compose restart failed".data) rfl).1
  · exact ((c1_restart_amended demoImage none [some "x".data] demoImage).2 rfl).1

/-- A successful pipeline run always ends by persisting `running` with an
empty message. -/
theorem deployProject_ok_status (env : DeployEnv) (p rec0 : Project) :
    ∀ u rec1, deployProject env p rec0 = (Except.ok u, rec1) →
      rec1.status = .running ∧ rec1.statusMsg = [] := by
  intro u rec1 h
  unfold deployProject at h
  repeat' split at h
  all_goals try simp_all [setStatus]
  all_goals (rw [← h]; simp)

/-- Claim C2: however one deploy pipeline run ends, the persisted status is
`running` with an empty message (on success) or `error` carrying the pipeline
failure's message (on failure at any step); it is never left as `deploying`. -/
theorem c2_deploy_terminal_status (env : DeployEnv) (p rec : Project) :
    (deployHandler env p rec).status ≠ ProjectStatus.deploying ∧
    (((deployHandler env p rec).status = ProjectStatus.running ∧
       (deployHandler env p rec).statusMsg = []) ∨
     (∃ e, (deployHandler env p rec).status = ProjectStatus.error ∧
       (deployHandler env p rec).statusMsg = e ∧
       (deployProject env p (setStatus rec .deploying "Starting deployment...".data)).1
         = Except.error e)) := by
  rcases hdp : deployProject env p
      (setStatus rec ProjectStatus.deploying "Starting deployment...".data) with ⟨res, rec1⟩
  unfold deployHandler
  rw [hdp]
  cases res with
  | error e =>
    refine ⟨by simp [setStatus], Or.inr ⟨e, by simp [setStatus], by simp [setStatus], ?_⟩⟩
    rfl
  | ok u =>
    have hst := deployProject_ok_status env p _ u rec1 hdp
    exact ⟨by simp [hst.1], Or.inl ⟨by simp [hst.1], by simp [hst.2]⟩⟩

/-- Counterexample to claim C3 as stated: `UpdateStatus`, `UpdateLastCommit`
and `UpdateContainerIDs` on an id absent from the store succeed silently
(no rows-affected check) instead of reporting a not-found condition. -/
theorem c3_not_found_counterexample :
    updateStatusDB [] "missing".data ProjectStatus.running [] = Except.ok [] ∧
    updateLastCommitDB [] "missing".data "c".data = Except.ok [] ∧
    updateContainerIDsDB [] "missing".data [] = Except.ok [] := ⟨rfl, rfl, rfl⟩

theorem map_untouched (f : Project → Project) (id : Str) :
    ∀ rows : List Project, (∀ r ∈ rows, r.id ≠ id) →
      rows.map (fun r => if r.id = id then f r else r) = rows := by
  intro rows h
  induction rows with
  | nil => rfl
  | cons a t ih =>
    have ha : ¬ a.id = id := h a (by simp)
    simp only [List.map_cons, if_neg ha, List.cons.injEq, true_and]
    exact ih (fun r hr => h r (by simp [hr]))

/-- Claim C3 (amended): `GetByID`, `GetByName`, `Update` and `Delete` report a
missing id/name distinguishably (a `none` result, resp. the "project not
found" error), while `UpdateStatus`, `UpdateLastCommit` and
`UpdateContainerIDs` succeed silently and leave the store unchanged. -/
theorem c3_not_found_amended (rows : List Project) (id nm : Str) (p : Project)
    (st : ProjectStatus) (msg c : Str) (cids : List Str)
    (hid : ∀ r ∈ rows, r.id ≠ id) (hnm : ∀ r ∈ rows, r.name ≠ nm) (hp : p.id = id) :
    getByID rows id = none ∧
    getByName rows nm = none ∧
    updateProject rows p = Except.error "project not found".data ∧
    deleteProject rows id = Except.error "project not found".data ∧
    updateStatusDB rows id st msg = Except.ok rows ∧
    updateLastCommitDB rows id c = Except.ok rows ∧
    updateContainerIDsDB rows id cids = Except.ok rows := by
  have hcount : rows.countP (fun r => r.id = id) = 0 := by
    rw [List.countP_eq_zero]
    intro r hr
    simpa using hid r hr
  refine ⟨?_, ?_, ?_, ?_, ?_, ?_, ?_⟩
  · rw [getByID, List.find?_eq_none]
    intro r hr
    simpa using hid r hr
  · rw [getByName, List.find?_eq_none]
    intro r hr
    simpa using hnm r hr
  · unfold updateProject
    rw [hp, hcount]
    rfl
  · unfold deleteProject
    rw [hcount]
    rfl
  · unfold updateStatusDB
    rw [map_untouched _ id rows hid]
  · unfold updateLastCommitDB
    rw [map_untouched _ id rows hid]
  · unfold updateContainerIDsDB
    rw [map_untouched _ id rows hid]

/-- Witness for C3 (amended) on a one-row store and the absent id `zzz`. -/
theorem c3_not_found_amended_witness :
    getByID [demoImage] "zzz".data = none ∧
    deleteProject [demoImage] "zzz".data = Except.error "project not found".data ∧
    updateStatusDB [demoImage] "zzz".data ProjectStatus.error [] = Except.ok [demoImage] := by
  have h := c3_not_found_amended [demoImage] ("zzz".data) ("nope".data)
    { demoImage with id := "zzz".data } ProjectStatus.error [] ("c".data) []
    (by decide) (by decide) rfl
  exact ⟨h.1, h.2.2.2.1, h.2.2.2.2.1⟩

/-- Claim C4: under the scenario conditions (auto-deploy on, git URL set,
local checkout present, status not `deploying`, remote commit differs) and
with the git calls succeeding, one watcher scan step performs exactly one
Pull, one UpdateLastCommit (with the new commit), and one Deploy invocation,
in that order. -/
theorem c4_watcher_sequence (env : Project → WatchEnv) (p : Project) (c : Str)
    (hauto : p.autoDeploy = true) (hgit : p.gitURL ≠ [])
    (hstat : p.status ≠ .deploying) (hex : (env p).existsLocal = true)
    (hupd : (env p).checkForUpdates = Except.ok (true, c))
    (hpull : (env p).pullErr = none) :
    (watcherScan env [p]).filter isSyncEvent
      = [.pull, .updateLastCommit c, .deploy] := by
  unfold watcherScan checkProject
  simp only [List.filter_cons, hauto, List.filter_nil, List.map_cons,
    List.map_nil, List.flatten_cons, List.flatten_nil, List.append_nil, if_true]
  rw [if_neg hgit, if_neg hstat, if_neg (by simp [hex]), hupd]
  simp only [if_neg (by simp : ¬ (¬ true = true)), hpull]
  cases hda : (env p).deployErr <;> simp [isSyncEvent]

/-- Witness for C4 at a concrete project and all-success environment. -/
theorem c4_watcher_sequence_witness :
    (watcherScan (fun _ => demoWatchEnv) [demoCompose]).filter isSyncEvent
      = [.pull, .updateLastCommit "bbbb".data, .deploy] :=
  c4_watcher_sequence (fun _ => demoWatchEnv) demoCompose ("bbbb".data)
    rfl (by decide) (by decide) rfl rfl rfl

/-! ### Round-trip lemmas for the JSON model -/

theorem unhex_hexDigit : ∀ k : Nat, k < 16 → unhex (hexDigit k) = some k := by
  intro k hk
  interval_cases k <;> decide

theorem escU_parse (n : Nat) (hn : n < 65536) (tail : Str) :
    parseStringBody (escU n ++ tail) =
      (parseStringBody tail).map (fun pr => (Char.ofNat n :: pr.1, pr.2)) := by
  have e1 := unhex_hexDigit (n / 4096 % 16) (by omega)
  have e2 := unhex_hexDigit (n / 256 % 16) (by omega)
  have e3 := unhex_hexDigit (n / 16 % 16) (by omega)
  have e4 := unhex_hexDigit (n % 16) (by omega)
  have hval : ((n / 4096 % 16 * 16 + n / 256 % 16) * 16 + n / 16 % 16) * 16 + n % 16 = n := by
    omega
  rw [show escU n ++ tail
      = '\\' :: 'u' :: hexDigit (n / 4096 % 16) :: hexDigit (n / 256 % 16)
          :: hexDigit (n / 16 % 16) :: hexDigit (n % 16) :: tail from rfl]
  rw [parseStringBody.eq_def]
  simp only [e1, e2, e3, e4, hval, reduceIte]
  rfl

theorem parse_singleEsc (e u : Char) (he : unescChar e = some u) (hne : e ≠ 'u')
    (tail : Str) :
    parseStringBody ('\\' :: e :: tail) =
      (parseStringBody tail).map (fun pr => (u :: pr.1, pr.2)) := by
  rw [parseStringBody.eq_def]
  simp [hne, he]

theorem parse_plain (c : Char) (h1 : c ≠ '"') (h2 : c ≠ '\\') (tail : Str) :
    parseStringBody (c :: tail) =
      (parseStringBody tail).map (fun pr => (c :: pr.1, pr.2)) := by
  rw [parseStringBody.eq_def]
  simp [h1, h2]

theorem parse_escBody : ∀ (s rest : Str),
    parseStringBody (escBody s ++ '"' :: rest) = some (s, rest) := by
  intro s
  induction s with
  | nil =>
    intro rest
    rw [show escBody [] = [] from rfl, List.nil_append, parseStringBody.eq_def]
    simp
  | cons c s ih =>
    intro rest
    rw [show escBody (c :: s) ++ '"' :: rest = escChar c ++ (escBody s ++ '"' :: rest) from by
      rw [show escBody (c :: s) = escChar c ++ escBody s from rfl, List.append_assoc]]
    unfold escChar
    by_cases h1 : c = '"'
    · subst h1
      rw [if_pos rfl,
        show (['\\', '"'] : Str) ++ (escBody s ++ '"' :: rest)
          = '\\' :: '"' :: (escBody s ++ '"' :: rest) from rfl,
        parse_singleEsc '"' '"' (by decide) (by decide), ih rest]
      rfl
    · rw [if_neg h1]
      by_cases h2 : c = '\\'
      · subst h2
        rw [if_pos rfl,
          show (['\\', '\\'] : Str) ++ (escBody s ++ '"' :: rest)
            = '\\' :: '\\' :: (escBody s ++ '"' :: rest) from rfl,
          parse_singleEsc '\\' '\\' (by decide) (by decide), ih rest]
        rfl
      · rw [if_neg h2]
        by_cases h3 : c = '\n'
        · subst h3
          rw [if_pos rfl,
            show (['\\', 'n'] : Str) ++ (escBody s ++ '"' :: rest)
              = '\\' :: 'n' :: (escBody s ++ '"' :: rest) from rfl,
            parse_singleEsc 'n' '\n' (by decide) (by decide), ih rest]
          rfl
        · rw [if_neg h3]
          by_cases h4 : c = '\r'
          · subst h4
            rw [if_pos rfl,
              show (['\\', 'r'] : Str) ++ (escBody s ++ '"' :: rest)
                = '\\' :: 'r' :: (escBody s ++ '"' :: rest) from rfl,
              parse_singleEsc 'r' '\r' (by decide) (by decide), ih rest]
            rfl
          · rw [if_neg h4]
            by_cases h5 : c = '\t'
            · subst h5
              rw [if_pos rfl,
                show (['\\', 't'] : Str) ++ (escBody s ++ '"' :: rest)
                  = '\\' :: 't' :: (escBody s ++ '"' :: rest) from rfl,
                parse_singleEsc 't' '\t' (by decide) (by decide), ih rest]
              rfl
            · rw [if_neg h5]
              by_cases h6 : c = '<' ∨ c = '>' ∨ c = '&'
              · rw [if_pos h6, escU_parse c.toNat ?hb6, ih rest]
                case hb6 =>
                  rcases h6 with h | h | h <;> subst h <;> decide
                simp [Char.ofNat_toNat]
              · rw [if_neg h6]
                by_cases h7 : c.toNat < 32
                · rw [if_pos h7, escU_parse c.toNat (by omega), ih rest]
                  simp [Char.ofNat_toNat]
                · rw [if_neg h7]
                  by_cases h8 : c.toNat = 8232 ∨ c.toNat = 8233
                  · rw [if_pos h8, escU_parse c.toNat (by omega), ih rest]
                    simp [Char.ofNat_toNat]
                  · rw [if_neg h8,
                      show ([c] : Str) ++ (escBody s ++ '"' :: rest)
                        = c :: (escBody s ++ '"' :: rest) from rfl,
                      parse_plain c h1 h2, ih rest]
                    rfl

set_option maxRecDepth 4000 in
theorem parseItemsF_encode : ∀ (xs : List Str) (fuel : Nat) (x : Str) (rest : Str),
    xs.length < fuel →
    parseItemsF fuel (strIntercalate [','] ((x :: xs).map encodeStringLit) ++ ']' :: rest)
      = some (x :: xs, rest) := by
  intro xs
  induction xs with
  | nil =>
    intro fuel x rest hf
    obtain ⟨f, rfl⟩ : ∃ f, fuel = f + 1 := ⟨fuel - 1, by omega⟩
    rw [show strIntercalate [','] ([x].map encodeStringLit) = encodeStringLit x from rfl]
    rw [show encodeStringLit x ++ ']' :: rest
        = '"' :: (escBody x ++ '"' :: (']' :: rest)) from by
      unfold encodeStringLit
      simp]
    rw [parseItemsF]
    simp [parse_escBody]
  | cons y ys ih =>
    intro fuel x rest hf
    obtain ⟨f, rfl⟩ : ∃ f, fuel = f + 1 := ⟨fuel - 1, by omega⟩
    rw [show strIntercalate [','] ((x :: y :: ys).map encodeStringLit)
        = encodeStringLit x ++ [','] ++ strIntercalate [','] ((y :: ys).map encodeStringLit)
        from rfl]
    rw [show (encodeStringLit x ++ [','] ++
          strIntercalate [','] ((y :: ys).map encodeStringLit)) ++ ']' :: rest
        = '"' :: (escBody x ++ '"' ::
          (',' :: (strIntercalate [','] ((y :: ys).map encodeStringLit) ++ ']' :: rest)))
        from by
      unfold encodeStringLit
      simp]
    have hih := ih f y rest (by simp only [List.length_cons] at hf; omega)
    rw [List.map_cons] at hih
    rw [parseItemsF]
    simp [parse_escBody, hih]

theorem intercalate_encode_length : ∀ (xs : List Str) (x : Str),
    xs.length + 1 ≤ (strIntercalate [','] ((x :: xs).map encodeStringLit)).length := by
  intro xs
  induction xs with
  | nil =>
    intro x
    rw [show strIntercalate [','] ([x].map encodeStringLit) = encodeStringLit x from rfl]
    unfold encodeStringLit
    simp
  | cons y ys ih =>
    intro x
    rw [show strIntercalate [','] ((x :: y :: ys).map encodeStringLit)
        = encodeStringLit x ++ [','] ++ strIntercalate [','] ((y :: ys).map encodeStringLit)
        from rfl]
    have h := ih y
    simp only [List.length_append, List.length_cons, List.length_nil] at h ⊢
    omega

theorem parseItems_encode (xs : List Str) (x : Str) (rest : Str) :
    parseItems (strIntercalate [','] ((x :: xs).map encodeStringLit) ++ ']' :: rest)
      = some (x :: xs, rest) := by
  unfold parseItems
  apply parseItemsF_encode
  have h := intercalate_encode_length xs x
  simp only [List.length_append, List.length_cons]
  omega

set_option maxRecDepth 4000 in
theorem parsePairsF_encode : ∀ (xs : List (Str × Str)) (fuel : Nat) (x : Str × Str)
    (rest : Str),
    xs.length < fuel →
    parsePairsF fuel (strIntercalate [','] ((x :: xs).map
        (fun kv => encodeStringLit kv.1 ++ ':' :: encodeStringLit kv.2)) ++ '}' :: rest)
      = some (x :: xs, rest) := by
  intro xs
  induction xs with
  | nil =>
    rintro fuel ⟨k, v⟩ rest hf
    obtain ⟨f, rfl⟩ : ∃ f, fuel = f + 1 := ⟨fuel - 1, by omega⟩
    rw [show strIntercalate [','] ([(k, v)].map
          (fun kv => encodeStringLit kv.1 ++ ':' :: encodeStringLit kv.2))
        = encodeStringLit k ++ ':' :: encodeStringLit v from rfl]
    rw [show (encodeStringLit k ++ ':' :: encodeStringLit v) ++ '}' :: rest
        = '"' :: (escBody k ++ '"' ::
          (':' :: '"' :: (escBody v ++ '"' :: ('}' :: rest)))) from by
      unfold encodeStringLit
      simp]
    rw [parsePairsF]
    simp [parse_escBody]
  | cons y ys ih =>
    rintro fuel ⟨k, v⟩ rest hf
    obtain ⟨f, rfl⟩ : ∃ f, fuel = f + 1 := ⟨fuel - 1, by omega⟩
    rw [show strIntercalate [','] (((k, v) :: y :: ys).map
          (fun kv => encodeStringLit kv.1 ++ ':' :: encodeStringLit kv.2))
        = (encodeStringLit k ++ ':' :: encodeStringLit v) ++ [','] ++
          strIntercalate [','] ((y :: ys).map
            (fun kv => encodeStringLit kv.1 ++ ':' :: encodeStringLit kv.2)) from rfl]
    rw [show ((encodeStringLit k ++ ':' :: encodeStringLit v) ++ [','] ++
          strIntercalate [','] ((y :: ys).map
            (fun kv => encodeStringLit kv.1 ++ ':' :: encodeStringLit kv.2))) ++ '}' :: rest
        = '"' :: (escBody k ++ '"' ::
          (':' :: '"' :: (escBody v ++ '"' ::
            (',' :: (strIntercalate [','] ((y :: ys).map
              (fun kv => encodeStringLit kv.1 ++ ':' :: encodeStringLit kv.2)) ++
              '}' :: rest))))) from by
      unfold encodeStringLit
      simp]
    have hih := ih f y rest (by simp only [List.length_cons] at hf; omega)
    rw [List.map_cons] at hih
    rw [parsePairsF]
    simp [parse_escBody, hih]

theorem intercalate_pairs_length : ∀ (xs : List (Str × Str)) (x : Str × Str),
    xs.length + 1 ≤ (strIntercalate [','] ((x :: xs).map
      (fun kv => encodeStringLit kv.1 ++ ':' :: encodeStringLit kv.2))).length := by
  intro xs
  induction xs with
  | nil =>
    intro x
    rw [show strIntercalate [','] ([x].map
          (fun kv => encodeStringLit kv.1 ++ ':' :: encodeStringLit kv.2))
        = encodeStringLit x.1 ++ ':' :: encodeStringLit x.2 from rfl]
    unfold encodeStringLit
    simp
  | cons y ys ih =>
    intro x
    rw [show strIntercalate [','] ((x :: y :: ys).map
          (fun kv => encodeStringLit kv.1 ++ ':' :: encodeStringLit kv.2))
        = (encodeStringLit x.1 ++ ':' :: encodeStringLit x.2) ++ [','] ++
          strIntercalate [','] ((y :: ys).map
            (fun kv => encodeStringLit kv.1 ++ ':' :: encodeStringLit kv.2)) from rfl]
    have h := ih y
    simp only [List.length_append, List.length_cons, List.length_nil] at h ⊢
    omega

theorem parsePairs_encode (xs : List (Str × Str)) (x : Str × Str) (rest : Str) :
    parsePairs (strIntercalate [','] ((x :: xs).map
        (fun kv => encodeStringLit kv.1 ++ ':' :: encodeStringLit kv.2)) ++ '}' :: rest)
      = some (x :: xs, rest) := by
  unfold parsePairs
  apply parsePairsF_encode
  have h := intercalate_pairs_length xs x
  simp only [List.length_append, List.length_cons]
  omega

theorem parseStringArray_quote (t : Str) :
    parseStringArray ('[' :: '"' :: t) =
      match parseItems ('"' :: t) with
      | some (items, rest2) => if rest2 = [] then some items else none
      | none => none := by
  unfold parseStringArray
  simp

theorem parseStringArray_encode (l : List Str) :
    parseStringArray (encodeStringArray l) = some l := by
  cases l with
  | nil => decide
  | cons x xs =>
    obtain ⟨t, ht⟩ : ∃ t, strIntercalate [','] ((x :: xs).map encodeStringLit) = '"' :: t := by
      cases xs
      · exact ⟨_, rfl⟩
      · exact ⟨_, rfl⟩
    rw [show encodeStringArray (x :: xs)
        = '[' :: (strIntercalate [','] ((x :: xs).map encodeStringLit) ++ ([']'] : Str))
        from rfl]
    rw [ht, List.cons_append, parseStringArray_quote, ← List.cons_append, ← ht]
    rw [parseItems_encode xs x []]
    rfl

theorem parseStringMap_quote (t : Str) :
    parseStringMap ('{' :: '"' :: t) =
      match parsePairs ('"' :: t) with
      | some (prs, rest2) => if rest2 = [] then some prs else none
      | none => none := by
  unfold parseStringMap
  simp

theorem parseStringMap_encodeList (ms : List (Str × Str)) :
    parseStringMap ('{' :: (strIntercalate [','] (ms.map
        (fun kv => encodeStringLit kv.1 ++ ':' :: encodeStringLit kv.2)) ++ (['}'] : Str)))
      = some ms := by
  cases ms with
  | nil => decide
  | cons x xs =>
    obtain ⟨t, ht⟩ : ∃ t, strIntercalate [','] ((x :: xs).map
        (fun kv => encodeStringLit kv.1 ++ ':' :: encodeStringLit kv.2)) = '"' :: t := by
      cases xs
      · exact ⟨_, rfl⟩
      · exact ⟨_, rfl⟩
    rw [ht, List.cons_append, parseStringMap_quote, ← List.cons_append, ← ht]
    rw [parsePairs_encode xs x []]
    rfl

theorem parseStringMap_encode (m : List (Str × Str)) :
    parseStringMap (encodeStringMap m)
      = some (m.insertionSort (fun a b => keyLE a.1 b.1)) := by
  unfold encodeStringMap
  exact parseStringMap_encodeList _

/-- Claim C10: serialising a project's container-ID list and env-var map to
their database text forms and parsing back is a round trip: the list comes
back equal (a nil list serialises to `[]` and parses back as the empty list),
and the map comes back as the key-sorted enumeration of the same map — a
permutation of the original bindings, i.e. an equal map (a nil map serialises
to `{}` and parses back as the empty map). -/
theorem c10_json_round_trip (p : Project) :
    parseContainerIDs (containerIDsJSON p) = some ((p.containerIDs).getD []) ∧
    (p.containerIDs = none → containerIDsJSON p = "[]".data) ∧
    parseEnvVars (envVarsJSON p)
      = some (((p.envVars).getD []).insertionSort (fun a b => keyLE a.1 b.1)) ∧
    (((p.envVars).getD []).insertionSort (fun a b => keyLE a.1 b.1)).Perm
      ((p.envVars).getD []) ∧
    (p.envVars = none → envVarsJSON p = "{}".data) := by
  refine ⟨?_, ?_, ?_, List.perm_insertionSort _ _, ?_⟩
  · unfold parseContainerIDs containerIDsJSON
    cases hc : p.containerIDs with
    | none => decide
    | some l =>
      rw [if_neg (by unfold encodeStringArray; simp)]
      simp [parseStringArray_encode l]
  · intro h
    unfold containerIDsJSON
    rw [h]
  · unfold parseEnvVars envVarsJSON
    cases hc : p.envVars with
    | none =>
      rw [show (Option.getD (none : Option (List (Str × Str))) []) = [] from rfl]
      decide
    | some m =>
      rw [if_neg (by unfold encodeStringMap; simp)]
      simp [parseStringMap_encode m]
  · intro h
    unfold envVarsJSON
    rw [h]

/-- Witness for C10 at `demoNoDomain` (nil list, nil map) and `demoCompose`
(a one-binding map), discharging the nil-case implications. -/
theorem c10_json_round_trip_witness :
    parseContainerIDs (containerIDsJSON demoNoDomain) = some [] ∧
    containerIDsJSON demoNoDomain = "[]".data ∧
    envVarsJSON demoNoDomain = "{}".data ∧
    parseEnvVars (envVarsJSON demoCompose) = some [("K".data, "V".data)] := by
  have h := c10_json_round_trip demoNoDomain
  have h2 := c10_json_round_trip demoCompose
  refine ⟨by simpa using h.1, h.2.1 rfl, h.2.2.2.2 rfl, ?_⟩
  have := h2.2.2.1
  rw [this]
  rfl

/-! ### Map-semantics lemmas for label injection -/

theorem strStartsWith_iff : ∀ p s : Str, strStartsWith p s = true ↔ p <+: s := by
  intro p
  induction p with
  | nil => intro s; simp [strStartsWith]
  | cons a ps ih =>
    intro s
    cases s with
    | nil =>
      simp [strStartsWith]
    | cons b t =>
      rw [strStartsWith]
      simp only [Bool.and_eq_true, decide_eq_true_eq]
      constructor
      · rintro ⟨rfl, h⟩
        exact (List.prefix_cons_inj a).2 ((ih t).1 h)
      · rintro ⟨u, hu⟩
        rw [List.cons_append] at hu
        injection hu with h1 h2
        exact ⟨h1, (ih t).2 ⟨u, h2⟩⟩

theorem lookup_mapInsert_self (k v : Str) :
    ∀ m, lookupKey k (mapInsert k v m) = some v := by
  intro m
  induction m with
  | nil => simp [mapInsert, lookupKey]
  | cons kv rest ih =>
    by_cases hkv : kv.1 = k
    · unfold mapInsert
      rw [if_pos (by simp [hkv])]
      simp [lookupKey, hkv]
    · unfold mapInsert at ih ⊢
      by_cases har : rest.any (fun kv => kv.1 = k)
      · rw [if_pos (by simp [har])]
        rw [if_pos har] at ih
        simp only [List.map_cons]
        rw [show (if kv.1 = k then (k, v) else kv) = kv from by simp [hkv]]
        rw [lookupKey, if_neg (by simpa using hkv)]
        exact ih
      · rw [if_neg (by simp [hkv, har])]
        rw [if_neg har] at ih
        rw [List.cons_append, lookupKey, if_neg (by simpa using hkv)]
        exact ih

theorem lookup_mapInsert_ne (k k2 v : Str) (hk : ¬ k2 = k) :
    ∀ m, lookupKey k (mapInsert k2 v m) = lookupKey k m := by
  intro m
  induction m with
  | nil => simp [mapInsert, lookupKey, hk]
  | cons kv rest ih =>
    by_cases hkv : kv.1 = k2
    · unfold mapInsert
      rw [if_pos (by simp [hkv])]
      simp only [List.map_cons]
      rw [show (if kv.1 = k2 then (k2, v) else kv) = (k2, v) from by simp [hkv]]
      rw [lookupKey, lookupKey, if_neg (by simpa using hk)]
      rw [if_neg (by rw [hkv]; simpa using hk)]
      -- remaining: lookup in rest.map f = lookup rest, where f touches only keys = k2
      clear ih
      induction rest with
      | nil => rfl
      | cons kv2 rest2 ih2 =>
        simp only [List.map_cons]
        by_cases h2 : kv2.1 = k2
        · rw [show (if kv2.1 = k2 then (k2, v) else kv2) = (k2, v) from by simp [h2]]
          rw [lookupKey, lookupKey, if_neg (by simpa using hk)]
          rw [if_neg (by rw [h2]; simpa using hk)]
          exact ih2
        · rw [show (if kv2.1 = k2 then (k2, v) else kv2) = kv2 from by simp [h2]]
          rw [lookupKey, lookupKey]
          by_cases h3 : kv2.1 = k
          · simp [h3]
          · rw [if_neg (by simpa using h3), if_neg (by simpa using h3)]
            exact ih2
    · unfold mapInsert at ih ⊢
      by_cases har : rest.any (fun kv => kv.1 = k2)
      · rw [if_pos (by simp [har])]
        rw [if_pos har] at ih
        simp only [List.map_cons]
        rw [show (if kv.1 = k2 then (k2, v) else kv) = kv from by simp [hkv]]
        rw [lookupKey, lookupKey]
        by_cases h3 : kv.1 = k
        · simp [h3]
        · rw [if_neg (by simpa using h3), if_neg (by simpa using h3)]
          exact ih
      · rw [if_neg (by simp [hkv, har])]
        rw [if_neg har] at ih
        rw [List.cons_append, lookupKey, lookupKey]
        by_cases h3 : kv.1 = k
        · simp [h3]
        · rw [if_neg (by simpa using h3), if_neg (by simpa using h3)]
          exact ih

theorem mem_mapInsert (kv : Str × Str) (k v : Str) :
    ∀ m, kv ∈ mapInsert k v m → kv.1 = k ∨ kv ∈ m := by
  intro m hm
  unfold mapInsert at hm
  by_cases har : m.any (fun kv => kv.1 = k)
  · rw [if_pos har] at hm
    obtain ⟨kv0, hkv0, hkv0e⟩ := List.mem_map.1 hm
    by_cases h : kv0.1 = k
    · left
      rw [← hkv0e]
      simp [h]
    · right
      rw [← hkv0e]
      simpa [h] using hkv0
  · rw [if_neg har] at hm
    rcases List.mem_append.1 hm with h | h
    · right; exact h
    · left
      simp only [List.mem_singleton] at h
      rw [h]

theorem lookup_mapInsertAll_ne (k : Str) :
    ∀ src m, (∀ kv ∈ src, ¬ kv.1 = k) →
      lookupKey k (mapInsertAll src m) = lookupKey k m := by
  intro src
  induction src with
  | nil => intro m _; rfl
  | cons kv rest ih =>
    intro m h
    unfold mapInsertAll
    rw [List.foldl_cons]
    have step := ih (mapInsert kv.1 kv.2 m) (fun kv2 h2 => h kv2 (by simp [h2]))
    unfold mapInsertAll at step
    rw [step]
    exact lookup_mapInsert_ne k kv.1 kv.2 (h kv (by simp)) m

theorem mem_mapInsertAll (kv : Str × Str) :
    ∀ src m, kv ∈ mapInsertAll src m → kv.1 ∈ src.map Prod.fst ∨ kv ∈ m := by
  intro src
  induction src with
  | nil => intro m h; right; exact h
  | cons kv0 rest ih =>
    intro m h
    unfold mapInsertAll at h
    rw [List.foldl_cons] at h
    rcases ih (mapInsert kv0.1 kv0.2 m) (by unfold mapInsertAll; exact h) with h2 | h2
    · left; simp [h2]
    · rcases mem_mapInsert kv kv0.1 kv0.2 m h2 with h3 | h3
      · left; simp [h3]
      · right; exact h3

theorem key_mem_mapInsert_self (k v : Str) (m : List (Str × Str)) :
    k ∈ (mapInsert k v m).map Prod.fst := by
  unfold mapInsert
  by_cases har : m.any (fun kv => kv.1 = k)
  · rw [if_pos har]
    obtain ⟨kv0, hkv0, hkv0e⟩ := List.any_eq_true.1 har
    refine List.mem_map.2 ⟨(k, v), ?_, rfl⟩
    refine List.mem_map.2 ⟨kv0, hkv0, ?_⟩
    simp only [decide_eq_true_eq] at hkv0e
    simp [hkv0e]
  · rw [if_neg har]
    simp

theorem key_mem_mapInsert_mono (k2 k v : Str) (m : List (Str × Str))
    (h : k2 ∈ m.map Prod.fst) : k2 ∈ (mapInsert k v m).map Prod.fst := by
  unfold mapInsert
  by_cases har : m.any (fun kv => kv.1 = k)
  · rw [if_pos har]
    obtain ⟨kv0, hkv0, hkv0e⟩ := List.mem_map.1 h
    by_cases he : kv0.1 = k
    · refine List.mem_map.2 ⟨(k, v), List.mem_map.2 ⟨kv0, hkv0, by simp [he]⟩, ?_⟩
      rw [← hkv0e, he]
    · exact List.mem_map.2 ⟨kv0, List.mem_map.2 ⟨kv0, hkv0, by simp [he]⟩, hkv0e⟩
  · rw [if_neg har]
    simp [h]

theorem key_mem_mapInsertAll (k : Str) :
    ∀ src m, k ∈ src.map Prod.fst → k ∈ (mapInsertAll src m).map Prod.fst := by
  intro src
  induction src with
  | nil => intro m h; simp at h
  | cons kv rest ih =>
    intro m h
    unfold mapInsertAll
    rw [List.foldl_cons]
    rw [List.map_cons] at h
    rcases List.mem_cons.1 h with h2 | h2
    · -- k = kv.1 : stays a key through all later inserts
      subst h2
      clear h ih
      have hbase := key_mem_mapInsert_self kv.1 kv.2 m
      revert hbase
      generalize mapInsert kv.1 kv.2 m = m0
      intro hbase
      clear m
      induction rest generalizing m0 with
      | nil => exact hbase
      | cons kv2 rest2 ih2 =>
        rw [List.foldl_cons]
        exact ih2 _ (key_mem_mapInsert_mono kv.1 kv2.1 kv2.2 m0 hbase)
    · exact ih _ h2

theorem lookup_filter_none (k : Str) (pred : Str × Str → Bool)
    (hpred : ∀ v, pred (k, v) = false) :
    ∀ m : List (Str × Str), lookupKey k (m.filter pred) = none := by
  intro m
  induction m with
  | nil => rfl
  | cons kv rest ih =>
    rw [List.filter_cons]
    by_cases hp : pred kv = true
    · rw [if_pos hp, lookupKey]
      by_cases hk : kv.1 = k
      · exfalso
        have : pred (k, kv.2) = false := hpred kv.2
        rw [← hk] at this
        simp at this
        rw [this] at hp
        exact Bool.noConfusion hp
      · rw [if_neg (by simpa using hk)]
        exact ih
    · rw [if_neg hp]
      exact ih

theorem strSW_traefik_append (A X : Str)
    (hA : strStartsWith "traefik.".data A = true) :
    strStartsWith "traefik.".data (A ++ X) = true := by
  have h8 : ("traefik.".data : Str).length ≤ A.length := by
    obtain ⟨u, hu⟩ := (strStartsWith_iff _ _).1 hA
    rw [← hu]
    simp
  rw [strStartsWith_append_of_le _ _ _ h8]
  exact hA

theorem routersPre_traefik (k : Str) (h : strStartsWith routersPre k = true) :
    strStartsWith "traefik.".data k = true := by
  rw [strStartsWith_iff] at h ⊢
  exact List.IsPrefix.trans ((strStartsWith_iff _ _).1 (by decide)) h

theorem traefik_key_prefixed (r : Str) (p : Project) (d : Str) :
    ∀ kv ∈ traefikLabelsCore r p d, strStartsWith "traefik.".data kv.1 = true := by
  intro kv hkv
  unfold traefikLabelsCore at hkv
  by_cases hd : d = []
  · rw [if_pos hd] at hkv
    simp at hkv
  · rw [if_neg hd] at hkv
    rcases List.mem_append.1 hkv with h | h
    · unfold baseLabels at h
      rcases List.mem_cons.1 h with h | h
      · rw [h]; decide
      rcases List.mem_cons.1 h with h | h
      · rw [h]
        exact strSW_traefik_append _ _ (strSW_traefik_append _ _ (by decide))
      rcases List.mem_cons.1 h with h | h
      · rw [h]; decide
      · simp at h
    · have hro : ∀ X : Str, strStartsWith "traefik.".data (routersPre ++ X) = true :=
        fun X => strSW_traefik_append _ _ (by decide)
      by_cases hl : isLocalDomain d
      · rw [if_pos hl] at h
        unfold localRouterLabels at h
        rcases List.mem_cons.1 h with h | h
        · rw [h]
          exact strSW_traefik_append _ _ (hro r)
        rcases List.mem_cons.1 h with h | h
        · rw [h]
          exact strSW_traefik_append _ _ (hro r)
        · simp at h
      · rw [if_neg hl] at h
        unfold prodRouterLabels at h
        rcases List.mem_cons.1 h with h | h
        · rw [h]
          exact strSW_traefik_append _ _ (strSW_traefik_append _ _ (hro r))
        rcases List.mem_cons.1 h with h | h
        · rw [h]
          exact strSW_traefik_append _ _ (strSW_traefik_append _ _ (hro r))
        rcases List.mem_cons.1 h with h | h
        · rw [h]
          exact strSW_traefik_append _ _ (strSW_traefik_append _ _ (hro r))
        rcases List.mem_cons.1 h with h | h
        · rw [h]
          exact strSW_traefik_append _ _ (hro r)
        rcases List.mem_cons.1 h with h | h
        · rw [h]
          exact strSW_traefik_append _ _ (hro r)
        rcases List.mem_cons.1 h with h | h
        · rw [h]
          exact strSW_traefik_append _ _ (strSW_traefik_append _ _ (hro r))
        · simp at h

/-- A generated Traefik key never collides with a SlimDeploy key. -/
theorem traefik_key_ne_slim (r : Str) (p : Project) (d k : Str)
    (hk : strStartsWith "traefik.".data k = false) :
    ∀ kv ∈ traefikLabelsCore r p d, ¬ kv.1 = k := by
  intro kv hkv he
  have := traefik_key_prefixed r p d kv hkv
  rw [he, hk] at this
  exact Bool.noConfusion this

theorem lookup_managed (p : Project) (sv : ComposeService) :
    lookupKey (labelPre ++ ".managed".data) (managedLabels p sv) = some ("true".data) := by
  unfold managedLabels
  rw [lookup_mapInsert_ne _ _ _ (by decide)]
  exact lookup_mapInsert_self _ _ _

theorem lookup_project (p : Project) (sv : ComposeService) :
    lookupKey (labelPre ++ ".project".data) (managedLabels p sv) = some p.id := by
  unfold managedLabels
  exact lookup_mapInsert_self _ _ _

theorem inject_managed (p : Project) (compose : ComposeFile)
    (baseDomain mainService name : Str) (sv : ComposeService) :
    lookupKey (labelPre ++ ".managed".data)
      (injectServiceLabels p compose baseDomain mainService name sv)
      = some ("true".data) := by
  unfold injectServiceLabels
  by_cases hm : isMainService compose mainService name
  · rw [if_pos hm]
    unfold generateTraefikLabelsForCompose
    rw [lookup_mapInsertAll_ne _ _ _
      (traefik_key_ne_slim _ p _ (labelPre ++ ".managed".data) (by decide))]
    exact lookup_managed p sv
  · rw [if_neg hm]
    exact lookup_managed p sv

theorem inject_project (p : Project) (compose : ComposeFile)
    (baseDomain mainService name : Str) (sv : ComposeService) :
    lookupKey (labelPre ++ ".project".data)
      (injectServiceLabels p compose baseDomain mainService name sv)
      = some p.id := by
  unfold injectServiceLabels
  by_cases hm : isMainService compose mainService name
  · rw [if_pos hm]
    unfold generateTraefikLabelsForCompose
    rw [lookup_mapInsertAll_ne _ _ _
      (traefik_key_ne_slim _ p _ (labelPre ++ ".project".data) (by decide))]
    exact lookup_project p sv
  · rw [if_neg hm]
    exact lookup_project p sv

theorem inject_nonmain_no_traefik (p : Project) (compose : ComposeFile)
    (baseDomain mainService name : Str) (sv : ComposeService)
    (hm : isMainService compose mainService name = false)
    (k : Str) (hk : strStartsWith "traefik.".data k = true)
    (hne : k ≠ "traefik.enable".data) :
    lookupKey k (injectServiceLabels p compose baseDomain mainService name sv) = none := by
  unfold injectServiceLabels
  rw [if_neg (by simp [hm])]
  unfold managedLabels
  have hkp : ¬ (labelPre ++ ".project".data) = k := by
    intro he
    rw [← he] at hk
    exact Bool.noConfusion ((by decide :
      strStartsWith "traefik.".data (labelPre ++ ".project".data) = false) ▸ hk)
  have hkm : ¬ (labelPre ++ ".managed".data) = k := by
    intro he
    rw [← he] at hk
    exact Bool.noConfusion ((by decide :
      strStartsWith "traefik.".data (labelPre ++ ".managed".data) = false) ▸ hk)
  rw [lookup_mapInsert_ne _ _ _ hkp, lookup_mapInsert_ne _ _ _ hkm]
  unfold strippedLabels
  apply lookup_filter_none
  intro v
  simp [hk, hne]

theorem ruleKey_mem_core (rn : Str) (p : Project) (d : Str) (hd : ¬ d = []) :
    (routersPre ++ rn ++ ".rule".data) ∈ (traefikLabelsCore rn p d).map Prod.fst := by
  unfold traefikLabelsCore
  rw [if_neg hd]
  by_cases hl : isLocalDomain d
  · rw [if_pos hl]
    refine List.mem_map.2 ⟨(routersPre ++ rn ++ ".rule".data, hostRule d), ?_, rfl⟩
    refine List.mem_append_right _ ?_
    unfold localRouterLabels
    exact .head _
  · rw [if_neg hl]
    refine List.mem_map.2 ⟨(routersPre ++ rn ++ ".rule".data, hostRule d), ?_, rfl⟩
    refine List.mem_append_right _ ?_
    unfold prodRouterLabels
    exact .tail _ (.tail _ (.tail _ (.head _)))

theorem hasRouting_managed_false (p : Project) (sv : ComposeService) :
    ∀ kv ∈ managedLabels p sv, strStartsWith routersPre kv.1 = false := by
  intro kv hkv
  rcases mem_mapInsert kv _ _ _ hkv with h | h
  · rw [h]; decide
  rcases mem_mapInsert kv _ _ _ h with h2 | h2
  · rw [h2]; decide
  · by_contra hb
    simp only [Bool.not_eq_false] at hb
    have hpred := List.of_mem_filter h2
    have htr : strStartsWith "traefik.".data kv.1 = true := routersPre_traefik _ hb
    have hne : kv.1 ≠ "traefik.enable".data := by
      intro he
      rw [he] at hb
      exact Bool.noConfusion ((by decide :
        strStartsWith routersPre ("traefik.enable".data) = false) ▸ hb)
    simp [htr, hne] at hpred

theorem hasRouting_inject_eq (p : Project) (compose : ComposeFile)
    (baseDomain mainService name : Str) (sv : ComposeService) :
    hasRoutingLabels (injectService p compose baseDomain mainService name sv)
      = (isMainService compose mainService name &&
         ! (getEffectiveDomain p baseDomain = [] : Bool)) := by
  unfold hasRoutingLabels injectService
  rw [show getLabelsAsMap (GoLabels.strMap
      (injectServiceLabels p compose baseDomain mainService name sv))
      = injectServiceLabels p compose baseDomain mainService name sv from rfl]
  unfold injectServiceLabels
  by_cases hm : isMainService compose mainService name
  · rw [if_pos hm, hm, Bool.true_and]
    by_cases hd : getEffectiveDomain p baseDomain = []
    · rw [show (! (getEffectiveDomain p baseDomain = [] : Bool)) = false from by simp [hd]]
      unfold generateTraefikLabelsForCompose traefikLabelsCore
      rw [if_pos hd]
      rw [show mapInsertAll [] (managedLabels p sv) = managedLabels p sv from rfl]
      rw [List.any_eq_false]
      intro kv hkv
      simp [hasRouting_managed_false p sv kv hkv]
    · rw [show (! (getEffectiveDomain p baseDomain = [] : Bool)) = true from by simp [hd]]
      rw [List.any_eq_true]
      have hkey := key_mem_mapInsertAll
        (routersPre ++ sanitizeRouterName (p.name ++ "-".data ++ name) ++ ".rule".data)
        (generateTraefikLabelsForCompose p baseDomain name) (managedLabels p sv)
        (by unfold generateTraefikLabelsForCompose
            exact ruleKey_mem_core _ p _ hd)
      obtain ⟨kv, hkv, hkve⟩ := List.mem_map.1 hkey
      refine ⟨kv, hkv, ?_⟩
      rw [hkve]
      rw [show routersPre ++ sanitizeRouterName (p.name ++ "-".data ++ name) ++ ".rule".data
          = routersPre ++ (sanitizeRouterName (p.name ++ "-".data ++ name) ++ ".rule".data)
          from by simp]
      simp [strStartsWith_append_self]
  · rw [if_neg hm]
    rw [show isMainService compose mainService name = false from by simpa using hm]
    rw [Bool.false_and, List.any_eq_false]
    intro kv hkv
    simp [hasRouting_managed_false p sv kv hkv]

theorem map_fst_filter_fst (q : Str → Bool) :
    ∀ l : List (Str × ComposeService),
      ((l.filter (fun sv => q sv.1)).map Prod.fst) = (l.map Prod.fst).filter q := by
  intro l
  induction l with
  | nil => rfl
  | cons a t ih =>
    rw [List.filter_cons, List.map_cons, List.filter_cons]
    by_cases hq : q a.1
    · rw [if_pos (by simpa using hq), if_pos (by simpa using hq), List.map_cons, ih]
    · rw [if_neg (by simpa using hq), if_neg (by simpa using hq), ih]

theorem routedServices_inject (p : Project) (compose : ComposeFile)
    (baseDomain mainService : Str) :
    routedServices (injectLabels p compose baseDomain mainService).1
      = if getEffectiveDomain p baseDomain = [] then []
        else (compose.services.map Prod.fst).filter
          (fun n => isMainService compose mainService n) := by
  unfold routedServices
  rw [show (injectLabels p compose baseDomain mainService).1.services
      = compose.services.map
        (fun sv => (sv.1, injectService p compose baseDomain mainService sv.1 sv.2)) from rfl]
  rw [List.filter_map]
  have hcong : ∀ sv ∈ compose.services,
      ((fun nsv => hasRoutingLabels nsv.2) ∘
        (fun sv => (sv.1, injectService p compose baseDomain mainService sv.1 sv.2))) sv
      = (fun sv => (isMainService compose mainService sv.1 &&
          ! (getEffectiveDomain p baseDomain = [] : Bool))) sv := by
    intro sv _
    exact hasRouting_inject_eq p compose baseDomain mainService sv.1 sv.2
  rw [List.filter_congr hcong]
  by_cases hd : getEffectiveDomain p baseDomain = []
  · rw [if_pos hd]
    have hall : ∀ sv ∈ compose.services,
        (fun sv => (isMainService compose mainService sv.1 &&
          ! (getEffectiveDomain p baseDomain = [] : Bool))) sv = false := by
      intro sv _
      simp [hd]
    rw [List.filter_eq_nil_iff.2 ?hnil]
    · simp
    case hnil =>
      intro sv hsv
      simp only [Bool.not_eq_true]
      exact hall sv hsv
  · rw [if_neg hd]
    have hd2 : ∀ sv ∈ compose.services,
        (fun sv => (isMainService compose mainService sv.1 &&
          ! (getEffectiveDomain p baseDomain = [] : Bool))) sv
        = (fun sv => isMainService compose mainService sv.1) sv := by
      intro sv _
      simp [hd]
    rw [List.filter_congr hd2, List.map_map]
    exact map_fst_filter_fst (fun n => isMainService compose mainService n) compose.services

theorem findMainService_mem (compose : ComposeFile) (hne : compose.services ≠ []) :
    findMainService compose ∈ compose.services.map Prod.fst := by
  unfold findMainService
  cases hf : (["app".data, "web".data, "api".data, "server".data,
      "frontend".data, "backend".data, "nginx".data] : List Str).find?
      (fun c => compose.services.any (fun sv => sv.1 = c)) with
  | some c =>
    have hprop := List.find?_some hf
    simp only [decide_eq_true_eq] at hprop
    obtain ⟨sv, hsv, hsve⟩ := List.any_eq_true.1 hprop
    simp only [decide_eq_true_eq] at hsve
    exact List.mem_map.2 ⟨sv, hsv, hsve⟩
  | none =>
    cases hs : compose.services with
    | nil => exact absurd hs hne
    | cons sv rest =>
      show sv.1 ∈ (sv :: rest).map Prod.fst
      exact List.mem_map_of_mem Prod.fst (List.Mem.head rest)

theorem count_filter_eq (a : Str) :
    ∀ l : List Str, l.Nodup →
      ((l.filter (fun n => n = a)).length ≤ 1 ∧
       ((l.filter (fun n => n = a)).length = 1 ↔ a ∈ l)) := by
  intro l hnd
  induction l with
  | nil => simp
  | cons b t ih =>
    have hnd2 : t.Nodup := (List.nodup_cons.1 hnd).2
    have hb : b ∉ t := (List.nodup_cons.1 hnd).1
    obtain ⟨ih1, ih2⟩ := ih hnd2
    rw [List.filter_cons]
    by_cases hba : b = a
    · subst hba
      rw [if_pos (by simp)]
      have ht0 : (t.filter (fun n => n = b)).length = 0 := by
        rw [List.length_eq_zero, List.filter_eq_nil_iff]
        intro n hn
        simp only [decide_eq_true_eq]
        intro he
        exact hb (he ▸ hn)
      constructor
      · simp [ht0]
      · simp [ht0]
    · rw [if_neg (by simpa using hba)]
      constructor
      · exact ih1
      · rw [ih2]
        constructor
        · intro h; exact List.mem_cons_of_mem b h
        · intro h
          rcases List.mem_cons.1 h with h | h
          · exact absurd h.symm hba
          · exact h

theorem mainFilter_length (compose : ComposeFile) (mainService : Str)
    (hnodup : (compose.services.map Prod.fst).Nodup)
    (hne : ∀ n ∈ compose.services.map Prod.fst, n ≠ []) :
    ((compose.services.map Prod.fst).filter
        (fun n => isMainService compose mainService n)).length ≤ 1 ∧
    (((compose.services.map Prod.fst).filter
        (fun n => isMainService compose mainService n)).length = 1 ↔
      (mainService ∈ compose.services.map Prod.fst ∨
        (mainService = [] ∧ compose.services ≠ []))) := by
  by_cases hms : mainService = []
  · subst hms
    have hcong : ∀ n ∈ compose.services.map Prod.fst,
        isMainService compose [] n = (fun n => (n = findMainService compose : Bool)) n := by
      intro n hn
      unfold isMainService
      have : (n = ([] : Str)) = False := by
        simp [hne n hn]
      simp [this]
    rw [List.filter_congr hcong]
    obtain ⟨h1, h2⟩ := count_filter_eq (findMainService compose) _ hnodup
    refine ⟨h1, ?_⟩
    rw [h2]
    constructor
    · intro h
      right
      refine ⟨rfl, ?_⟩
      intro hnil
      rw [hnil] at h
      simp at h
    · intro h
      rcases h with h | h
      · exact absurd rfl (hne _ h)
      · exact findMainService_mem compose h.2
  · have hcong : ∀ n ∈ compose.services.map Prod.fst,
        isMainService compose mainService n = (fun n => (n = mainService : Bool)) n := by
      intro n hn
      unfold isMainService
      simp [hms]
    rw [List.filter_congr hcong]
    obtain ⟨h1, h2⟩ := count_filter_eq mainService _ hnodup
    refine ⟨h1, ?_⟩
    rw [h2]
    constructor
    · intro h; left; exact h
    · intro h
      rcases h with h | h
      · exact h
      · exact absurd h.1 hms

theorem lookup_mem (k v : Str) :
    ∀ m : List (Str × Str), lookupKey k m = some v → (k, v) ∈ m := by
  intro m
  induction m with
  | nil => intro h; exact Option.noConfusion h
  | cons kv rest ih =>
    intro h
    rw [lookupKey] at h
    by_cases hk : kv.1 = k
    · rw [if_pos hk] at h
      have hv : kv.2 = v := Option.some.inj h
      rw [← hk, ← hv]
      exact List.Mem.head rest
    · rw [if_neg hk] at h
      exact List.Mem.tail kv (ih h)

theorem mem_mapInsert_pair (kv : Str × Str) (k v : Str) :
    ∀ m, kv ∈ mapInsert k v m → kv = (k, v) ∨ kv ∈ m := by
  intro m hm
  unfold mapInsert at hm
  by_cases har : m.any (fun kv => kv.1 = k)
  · rw [if_pos har] at hm
    obtain ⟨kv0, hkv0, hkv0e⟩ := List.mem_map.1 hm
    by_cases h : kv0.1 = k
    · left
      rw [← hkv0e]
      simp [h]
    · right
      rw [← hkv0e]
      simpa [h] using hkv0
  · rw [if_neg har] at hm
    rcases List.mem_append.1 hm with h | h
    · right; exact h
    · left; simpa using h

theorem mem_mapInsertAll_pair (kv : Str × Str) :
    ∀ src m, kv ∈ mapInsertAll src m → kv ∈ src ∨ kv ∈ m := by
  intro src
  induction src with
  | nil => intro m h; right; exact h
  | cons kv0 rest ih =>
    intro m h
    unfold mapInsertAll at h
    rw [List.foldl_cons] at h
    rcases ih (mapInsert kv0.1 kv0.2 m) (by unfold mapInsertAll; exact h) with h2 | h2
    · left; exact List.Mem.tail kv0 h2
    · rcases mem_mapInsert_pair kv kv0.1 kv0.2 m h2 with h3 | h3
      · left
        rw [h3]
        exact List.Mem.head rest
      · right; exact h3

/-- The management-label step never produces a `traefik.*` binding other than
(possibly) a pre-existing `traefik.enable`: the two SlimDeploy keys are not
traefik-prefixed and `strippedLabels` has filtered the rest out. -/
theorem managed_no_traefik (p : Project) (sv : ComposeService) (k v : Str)
    (hk : strStartsWith "traefik.".data k = true)
    (hne : k ≠ "traefik.enable".data) :
    (k, v) ∉ managedLabels p sv := by
  intro hmem
  unfold managedLabels at hmem
  rcases mem_mapInsert (k, v) _ _ _ hmem with h | h
  · rw [show ((k, v) : Str × Str).1 = k from rfl] at h
    rw [h] at hk
    exact Bool.noConfusion ((by decide :
      strStartsWith "traefik.".data (labelPre ++ ".project".data) = false) ▸ hk)
  rcases mem_mapInsert (k, v) _ _ _ h with h2 | h2
  · rw [show ((k, v) : Str × Str).1 = k from rfl] at h2
    rw [h2] at hk
    exact Bool.noConfusion ((by decide :
      strStartsWith "traefik.".data (labelPre ++ ".managed".data) = false) ▸ hk)
  · have hpred := List.of_mem_filter h2
    simp [hk, hne] at hpred

/-- On *every* service (main or not), any `traefik.*` binding other than
`traefik.enable` present after injection is one of the freshly generated
routing labels — no pre-existing traefik label survives the stripping step. -/
theorem inject_traefik_from_gen (p : Project) (compose : ComposeFile)
    (baseDomain mainService name : Str) (sv : ComposeService)
    (k v : Str) (hk : strStartsWith "traefik.".data k = true)
    (hne : k ≠ "traefik.enable".data)
    (hlk : lookupKey k (injectServiceLabels p compose baseDomain mainService name sv)
      = some v) :
    (k, v) ∈ generateTraefikLabelsForCompose p baseDomain name := by
  unfold injectServiceLabels at hlk
  by_cases hm : isMainService compose mainService name
  · rw [if_pos hm] at hlk
    rcases mem_mapInsertAll_pair (k, v) _ _ (lookup_mem k v _ hlk) with h | h
    · exact h
    · exact absurd h (managed_no_traefik p sv k v hk hne)
  · rw [if_neg hm] at hlk
    exact absurd (lookup_mem k v _ hlk) (managed_no_traefik p sv k v hk hne)

/-- Counterexample to claim C5 as stated: with a caller-supplied main-service
override ("app") that names no service of the document (its only service is
"db") and a non-empty effective domain, no service receives routing labels —
not exactly one. -/
theorem c5_main_service_counterexample :
    getEffectiveDomain demoImage [] ≠ [] ∧
    demoComposeFile.services.map Prod.fst = ["db".data] ∧
    routedServices (injectLabels demoImage demoComposeFile [] ("app".data)).1 = [] := by
  refine ⟨by decide, rfl, by decide⟩

/-- Claim C5 (amended): after label injection every service carries the
management labels `slimdeploy.managed=true` and `slimdeploy.project=<id>`; on
*every* service no pre-existing `traefik.*` label other than `traefik.enable`
survives — any `traefik.*` binding other than the enable flag present in the
output is one of the freshly generated routing labels, and on a service that
is not the selected main service none is present at all; and (for a document
with distinct, non-empty service names) routing labels are attached to the
services selected by the main-service rule — at most one, and exactly one
precisely when the override names an existing service or the override is
empty and the document has at least one service — and to none at all when the
effective domain is empty or the override names no service. -/
theorem c5_inject_labels_amended (p : Project) (compose : ComposeFile)
    (baseDomain mainService : Str)
    (hnodup : (compose.services.map Prod.fst).Nodup)
    (hno_empty : ∀ n ∈ compose.services.map Prod.fst, n ≠ []) :
    (∀ nsv ∈ (injectLabels p compose baseDomain mainService).1.services,
      lookupKey (labelPre ++ ".managed".data) (getLabelsAsMap nsv.2.labels)
        = some ("true".data) ∧
      lookupKey (labelPre ++ ".project".data) (getLabelsAsMap nsv.2.labels) = some p.id) ∧
    (∀ nsv ∈ (injectLabels p compose baseDomain mainService).1.services,
      ∀ k v, strStartsWith "traefik.".data k = true → k ≠ "traefik.enable".data →
        lookupKey k (getLabelsAsMap nsv.2.labels) = some v →
        (k, v) ∈ generateTraefikLabelsForCompose p baseDomain nsv.1) ∧
    (∀ nsv ∈ (injectLabels p compose baseDomain mainService).1.services,
      isMainService compose mainService nsv.1 = false →
      ∀ k, strStartsWith "traefik.".data k = true → k ≠ "traefik.enable".data →
        lookupKey k (getLabelsAsMap nsv.2.labels) = none) ∧
    routedServices (injectLabels p compose baseDomain mainService).1
      = (if getEffectiveDomain p baseDomain = [] then []
         else (compose.services.map Prod.fst).filter
           (fun n => isMainService compose mainService n)) ∧
    ((compose.services.map Prod.fst).filter
        (fun n => isMainService compose mainService n)).length ≤ 1 ∧
    (((compose.services.map Prod.fst).filter
        (fun n => isMainService compose mainService n)).length = 1 ↔
      (mainService ∈ compose.services.map Prod.fst ∨
        (mainService = [] ∧ compose.services ≠ []))) := by
  refine ⟨?_, ?_, ?_, routedServices_inject p compose baseDomain mainService,
    (mainFilter_length compose mainService hnodup hno_empty).1,
    (mainFilter_length compose mainService hnodup hno_empty).2⟩
  · intro nsv hm
    rw [show (injectLabels p compose baseDomain mainService).1.services
        = compose.services.map
          (fun sv => (sv.1, injectService p compose baseDomain mainService sv.1 sv.2))
        from rfl] at hm
    obtain ⟨sv, hsv, hsve⟩ := List.mem_map.1 hm
    rw [← hsve]
    exact ⟨inject_managed p compose baseDomain mainService sv.1 sv.2,
      inject_project p compose baseDomain mainService sv.1 sv.2⟩
  · intro nsv hm k v hk hne hlk
    rw [show (injectLabels p compose baseDomain mainService).1.services
        = compose.services.map
          (fun sv => (sv.1, injectService p compose baseDomain mainService sv.1 sv.2))
        from rfl] at hm
    obtain ⟨sv, hsv, hsve⟩ := List.mem_map.1 hm
    rw [← hsve] at hlk ⊢
    exact inject_traefik_from_gen p compose baseDomain mainService sv.1 sv.2 k v hk hne hlk
  · intro nsv hm hmain k hk hne
    rw [show (injectLabels p compose baseDomain mainService).1.services
        = compose.services.map
          (fun sv => (sv.1, injectService p compose baseDomain mainService sv.1 sv.2))
        from rfl] at hm
    obtain ⟨sv, hsv, hsve⟩ := List.mem_map.1 hm
    rw [← hsve]
    rw [← hsve] at hmain
    exact inject_nonmain_no_traefik p compose baseDomain mainService sv.1 sv.2 hmain k hk hne

/-- Witness for C5 (amended): with an empty override on a document with
services "app" and "db", routing labels land exactly on "app". -/
theorem c5_inject_labels_amended_witness :
    routedServices (injectLabels demoImage demoComposeFile2 [] []).1 = ["app".data] ∧
    ((demoComposeFile2.services.map Prod.fst).filter
        (fun n => isMainService demoComposeFile2 [] n)).length = 1 := by
  have h := c5_inject_labels_amended demoImage demoComposeFile2 [] []
    (by decide) (by decide)
  refine ⟨?_, ?_⟩
  · rw [h.2.2.2.1]
    decide
  · exact h.2.2.2.2.2.mpr (Or.inr ⟨rfl, by decide⟩)

/-- Claim C9 (the code violates it, contradicting its own comment "Make a copy
to avoid modifying the original"): on a document whose networks map is
non-nil, `InjectLabels` returns with the *input* document mutated — its
networks map has gained the `slimdeploy` key. -/
theorem c9_inject_labels_mutates_input :
    (injectLabels demoImage demoComposeFile [] []).2.networks
      = some ["mynet".data, "slimdeploy".data] ∧
    demoComposeFile.networks = some ["mynet".data] ∧
    (injectLabels demoImage demoComposeFile [] []).2 ≠ demoComposeFile := by
  refine ⟨by decide, rfl, by decide⟩

end SlimDeploy
